import Mathlib

/-!
Verification of the photo_lens ingestion pipeline.

This file shallowly embeds the ingestion pipeline of the repository:
  * `worker/ingestion/metadata_ingest.py` (scanner, extractor, sanitizer,
    orchestrator, per-photo upsert),
  * `worker/ingestion/zip_stream.py` (image-name streaming),
  * `backend/app/core/events.py` (event broadcaster),
  * `backend/app/models/photos.py` (the `Photo` / `IngestStatus` ORM models),
and proves or refutes the specification claims about it.

Python values flowing through the sanitizer are modelled by the mutual
inductive `PyVal`/`PyList`/`PyDict` below; machine I/O (zip listing, byte
reads, JSON parsing, EXIF decoding) is modelled by records carrying the
observable outcome of each library call, with `none`/flags standing for a
raised exception.
-/

namespace PhotoLens

/-- Model of Python `datetime` values produced by the pipeline:
either an aware UTC datetime identified by its epoch-second value
(`datetime.fromtimestamp(n, tz=timezone.utc)`), or a naive datetime with
explicit fields (`datetime.strptime`). -/
inductive DTVal where
  | awareUtc (epoch : Int)
  | naive (y mo d h mi s : Nat)
deriving DecidableEq, Repr

mutual
/-- Model of the Python values handled by `_make_json_serializable`
(`metadata_ingest.py` lines 52-81): `None`, `bool`, `int`, `float`
(modelled by its rational value; the code only passes floats through, so
the representation is irrelevant), `str`, `bytes` (as the list of byte
values), `datetime`, `tuple`, `list`, `dict`, and a fallback constructor
for any other object carrying the text its `str()` produces. -/
inductive PyVal where
  | vnone
  | vbool (b : Bool)
  | vint (n : Int)
  | vfloat (q : Rat)
  | vstr (s : String)
  | vbytes (bs : List Nat)
  | vdt (d : DTVal)
  | vlist (xs : PyList)
  | vtuple (xs : PyList)
  | vdict (es : PyDict)
  | vother (r : String)

/-- A Python list/tuple payload. -/
inductive PyList where
  | nil
  | cons (hd : PyVal) (tl : PyList)

/-- A Python dict payload as a sequence of key/value pairs (keys may be
arbitrary hashable values; the code stringifies non-`str` keys). -/
inductive PyDict where
  | dnil
  | dcons (k : PyVal) (v : PyVal) (tl : PyDict)
end

/-- The NUL character stripped by the sanitizer. -/
def nulChar : Char := Char.ofNat 0

/-- Model of `s.replace("\x00", "")`: remove every NUL character from a string. -/
def stripNul (s : String) : String := String.mk (s.data.filter (fun c => c ≠ nulChar))

/-- Holds iff the string contains no NUL character. -/
def noNul (s : String) : Bool := s.data.all (fun c => c ≠ nulChar)

/-- Is `b` a UTF-8 continuation byte (`0x80..0xBF`)? -/
def isCont (b : Nat) : Bool := 0x80 ≤ b && b ≤ 0xBF

/-- Fuel-driven core of the UTF-8 decoder; each step consumes at least one
byte, so fuel equal to the byte count suffices. -/
def utf8Go : Nat → List Nat → List Char
  | 0, _ => []
  | _, [] => []
  | fuel + 1, b :: rest =>
    if b < 0x80 then Char.ofNat b :: utf8Go fuel rest
    else if 0xC2 ≤ b && b ≤ 0xDF then
      match rest with
      | b2 :: rest2 =>
        if isCont b2 then
          Char.ofNat ((b - 0xC0) * 64 + (b2 - 0x80)) :: utf8Go fuel rest2
        else utf8Go fuel rest
      | [] => []
    else if 0xE0 ≤ b && b ≤ 0xEF then
      match rest with
      | b2 :: b3 :: rest3 =>
        if (if b = 0xE0 then 0xA0 ≤ b2 && b2 ≤ 0xBF
            else if b = 0xED then 0x80 ≤ b2 && b2 ≤ 0x9F
            else isCont b2) && isCont b3 then
          Char.ofNat ((b - 0xE0) * 4096 + (b2 - 0x80) * 64 + (b3 - 0x80)) ::
            utf8Go fuel rest3
        else utf8Go fuel rest
      | _ => []
    else if 0xF0 ≤ b && b ≤ 0xF4 then
      match rest with
      | b2 :: b3 :: b4 :: rest4 =>
        if (if b = 0xF0 then 0x90 ≤ b2 && b2 ≤ 0xBF
            else if b = 0xF4 then 0x80 ≤ b2 && b2 ≤ 0x8F
            else isCont b2) && isCont b3 && isCont b4 then
          Char.ofNat ((b - 0xF0) * 262144 + (b2 - 0x80) * 4096 +
              (b3 - 0x80) * 64 + (b4 - 0x80)) :: utf8Go fuel rest4
        else utf8Go fuel rest
      | _ => []
    else utf8Go fuel rest

/-- Model of `bytes.decode("utf-8", errors="ignore")`: decode the byte
sequence, silently skipping undecodable bytes (invalid lead bytes,
truncated sequences, overlong encodings, surrogates, out-of-range code
points). -/
def utf8DecodeIgnore (bs : List Nat) : List Char := utf8Go bs.length bs

/-- The character for a decimal digit. -/
def digitChar (r : Nat) : Char :=
  if r = 0 then '0' else if r = 1 then '1' else if r = 2 then '2'
  else if r = 3 then '3' else if r = 4 then '4' else if r = 5 then '5'
  else if r = 6 then '6' else if r = 7 then '7' else if r = 8 then '8' else '9'

/-- Decimal digits of a natural number, most significant first. -/
def natDigits (n : Nat) : List Char :=
  if _h : n < 10 then [digitChar n]
  else natDigits (n / 10) ++ [digitChar (n % 10)]
decreasing_by exact Nat.div_lt_self (by omega) (by omega)

/-- Render a natural number left-padded with zeros to width `w`. -/
def padNat (w n : Nat) : List Char :=
  List.replicate (w - (natDigits n).length) '0' ++ natDigits n

/-- Model of `datetime.isoformat()` for the datetimes this pipeline
produces (second resolution; aware UTC datetimes carry a `+00:00`
offset). The epoch of an aware value is rendered via the civil fields of
`epoch mod` the usual calendar; for the claims only the absence of NUL
characters and stability under sanitization matter, so aware values are
rendered from their epoch seconds in a fixed shape. -/
def isoformat : DTVal → String
  | .naive y mo d h mi s =>
    String.mk (padNat 4 y ++ '-' :: padNat 2 mo ++ '-' :: padNat 2 d ++
      'T' :: padNat 2 h ++ ':' :: padNat 2 mi ++ ':' :: padNat 2 s)
  | .awareUtc n =>
    -- rendered from the epoch second count; aware UTC values always end
    -- in the "+00:00" offset
    String.mk ((if n < 0 then ['-'] else []) ++ natDigits n.natAbs ++
      "s+00:00".data)

/-- Model of CPython `str()` for the values that can appear as dict keys.
Exact renderings only matter through their NUL characters, which the code
strips; container renderings are an explicit approximation. -/
def pyStrRepr : PyVal → String
  | .vnone => "None"
  | .vbool true => "True"
  | .vbool false => "False"
  | .vint n => String.mk ((if n < 0 then ['-'] else []) ++ natDigits n.natAbs)
  | .vfloat q =>
    String.mk ((if q < 0 then ['-'] else []) ++ natDigits q.num.natAbs ++
      '/' :: natDigits q.den)
  | .vstr s => s
  | .vbytes bs => String.mk ('b' :: (utf8DecodeIgnore bs))
  | .vdt d => isoformat d
  | .vlist _ => "[...]"
  | .vtuple _ => "(...)"
  | .vdict _ => "\x7b...\x7d"
  | .vother r => r

/-- The key conversion of the dict branch of `_make_json_serializable`:
`k.replace("\x00", "") if isinstance(k, str) else str(k).replace("\x00", "")`. -/
def sanitizeKey (k : PyVal) : String :=
  match k with
  | .vstr s => stripNul s
  | _ => stripNul (pyStrRepr k)

/-- Assignment `d[key] = v` on a Python dict whose keys are strings (as
the sanitizer's dict comprehension produces them): when the key is
already present its value is updated in place, keeping the key's original
position; otherwise the entry is appended at the end. -/
def dictAssign : PyDict → String → PyVal → PyDict
  | .dnil, k, v => .dcons (.vstr k) v .dnil
  | .dcons k0 v0 es, k, v =>
    match k0 with
    | .vstr s0 =>
      if s0 = k then .dcons (.vstr s0) v es
      else .dcons (.vstr s0) v0 (dictAssign es k v)
    | _ => .dcons k0 v0 (dictAssign es k v)

mutual
/-- Embeds `_make_json_serializable` (`metadata_ingest.py` lines 52-81):
recursively convert a value into a JSON-storable one, decoding bytes,
stripping NUL characters from strings and dict keys, stringifying
datetimes and unknown leaves, and passing numbers and booleans through. -/
def sanitize : PyVal → PyVal
  | .vnone => .vnone
  | .vbytes bs => .vstr (stripNul (String.mk (utf8DecodeIgnore bs)))
  | .vstr s => .vstr (stripNul s)
  | .vdt d => .vstr (isoformat d)
  | .vtuple xs => .vlist (sanitizeList xs)
  | .vlist xs => .vlist (sanitizeList xs)
  | .vdict es => .vdict (sanitizeDictInto es .dnil)
  | .vint n => .vint n
  | .vfloat q => .vfloat q
  | .vbool b => .vbool b
  | .vother r => .vstr (stripNul r)

/-- Elementwise sanitization of a list/tuple payload. -/
def sanitizeList : PyList → PyList
  | .nil => .nil
  | .cons x xs => .cons (sanitize x) (sanitizeList xs)

/-- The dict branch of `_make_json_serializable` as the Python dict
comprehension executes it: each source entry is assigned one by one into
a fresh dict, so distinct keys that become equal after stringification
and NUL-stripping collapse into one entry — the first occurrence keeps
its position and the last value wins. -/
def sanitizeDictInto : PyDict → PyDict → PyDict
  | .dnil, acc => acc
  | .dcons k v es, acc =>
    sanitizeDictInto es (dictAssign acc (sanitizeKey k) (sanitize v))
end

/-- Sanitization of a dict payload: build the comprehension's result
starting from an empty dict. -/
def sanitizeDict (es : PyDict) : PyDict := sanitizeDictInto es .dnil

/-- Specification-side entry-wise image of dict sanitization: keys
stringified and NUL-stripped, values sanitized, no collapse. It coincides
with `sanitizeDict` exactly when the sanitized keys are pairwise
distinct. -/
def sanitizeEntries : PyDict → PyDict
  | .dnil => .dnil
  | .dcons k v es => .dcons (.vstr (sanitizeKey k)) (sanitize v) (sanitizeEntries es)

/-- Does some entry of the dict have the given sanitized key? -/
def keyMem (key : String) : PyDict → Bool
  | .dnil => false
  | .dcons k0 _ es => (sanitizeKey k0 = key) || keyMem key es

/-- The sanitized keys of the dict are pairwise distinct (no two entries
collapse under the comprehension). -/
def distinctKeys : PyDict → Bool
  | .dnil => true
  | .dcons k _ es => !keyMem (sanitizeKey k) es && distinctKeys es

/-- None of the source entries' sanitized keys occurs in the accumulator. -/
def freshAll : PyDict → PyDict → Bool
  | .dnil, _ => true
  | .dcons k _ es, acc => !keyMem (sanitizeKey k) acc && freshAll es acc

/-- Every key of the dict is a NUL-free string (the form `dictAssign`
builds and preserves). -/
def keysCanonical : PyDict → Bool
  | .dnil => true
  | .dcons k _ es =>
    (match k with | .vstr s => noNul s | _ => false) && keysCanonical es

/-- Concatenation of dict entry sequences. -/
def appendDict : PyDict → PyDict → PyDict
  | .dnil, d => d
  | .dcons k v es, d => .dcons k v (appendDict es d)

/-- Every value of the dict is a fixed point of the sanitizer. -/
def ValsFixed : PyDict → Prop
  | .dnil => True
  | .dcons _ v es => sanitize v = v ∧ ValsFixed es

/-- Sanitizing every value of the dict twice equals sanitizing it once. -/
def DictValsIdem : PyDict → Prop
  | .dnil => True
  | .dcons _ v es => sanitize (sanitize v) = sanitize v ∧ DictValsIdem es

mutual
/-- No mapping anywhere in the value has two keys that collapse under
sanitization. -/
def noKeyClash : PyVal → Bool
  | .vlist xs => noKeyClashList xs
  | .vtuple xs => noKeyClashList xs
  | .vdict es => distinctKeys es && noKeyClashDict es
  | _ => true

/-- `noKeyClash` over a list payload. -/
def noKeyClashList : PyList → Bool
  | .nil => true
  | .cons x xs => noKeyClash x && noKeyClashList xs

/-- `noKeyClash` over the values of a dict payload. -/
def noKeyClashDict : PyDict → Bool
  | .dnil => true
  | .dcons _ v es => noKeyClash v && noKeyClashDict es
end

mutual
/-- A value is storage-safe: only `None`, booleans, numbers, NUL-free
strings, lists and dicts whose keys are NUL-free strings; no bytes,
datetimes, tuples or unknown leaves remain. -/
def sanitizedB : PyVal → Bool
  | .vnone => true
  | .vbool _ => true
  | .vint _ => true
  | .vfloat _ => true
  | .vstr s => noNul s
  | .vbytes _ => false
  | .vdt _ => false
  | .vtuple _ => false
  | .vother _ => false
  | .vlist xs => sanitizedListB xs
  | .vdict es => sanitizedDictB es

/-- All members of a list payload are storage-safe. -/
def sanitizedListB : PyList → Bool
  | .nil => true
  | .cons x xs => sanitizedB x && sanitizedListB xs

/-- All keys of a dict payload are NUL-free strings and all values are
storage-safe. -/
def sanitizedDictB : PyDict → Bool
  | .dnil => true
  | .dcons k v es =>
    (match k with | .vstr s => noNul s | _ => false) && sanitizedB v && sanitizedDictB es
end

mutual
/-- The nesting structure of two values agrees: lists (and tuples) map to
lists of the same length with pointwise related members, dicts map to
dicts of the same length with pointwise related values, and every
non-container maps to a non-container. -/
def sameShape : PyVal → PyVal → Bool
  | .vlist xs, .vlist ys => sameShapeList xs ys
  | .vtuple xs, .vlist ys => sameShapeList xs ys
  | .vdict es, .vdict fs => sameShapeDict es fs
  | .vlist _, _ => false
  | .vtuple _, _ => false
  | .vdict _, _ => false
  | _, .vlist _ => false
  | _, .vtuple _ => false
  | _, .vdict _ => false
  | _, _ => true

/-- Pointwise shape agreement of list payloads. -/
def sameShapeList : PyList → PyList → Bool
  | .nil, .nil => true
  | .cons x xs, .cons y ys => sameShape x y && sameShapeList xs ys
  | _, _ => false

/-- Pointwise shape agreement of dict payloads (entry for entry). -/
def sameShapeDict : PyDict → PyDict → Bool
  | .dnil, .dnil => true
  | .dcons _ v es, .dcons _ w fs => sameShape v w && sameShapeDict es fs
  | _, _ => false
end

/-! ### Path, extension and MIME helpers (`metadata_ingest.py` lines 22-44) -/

/-- ASCII lower-casing of one character (`str.lower()`; the recognized
extensions are ASCII, so ASCII folding is all the lookup needs). -/
def lowerChar (c : Char) : Char :=
  if 'A' ≤ c ∧ c ≤ 'Z' then Char.ofNat (c.toNat + 32) else c

/-- ASCII lower-casing of a string. -/
def toLowerAscii (s : String) : String := String.mk (s.data.map lowerChar)

/-- Model of `Path(name).name`: the final path component — the characters after
the last `/`. -/
def basename (p : String) : String :=
  String.mk (p.data.foldl (fun acc c => if c = '/' then [] else acc ++ [c]) [])

/-- Model of `Path(name).suffix`: the extension of the final component, including
the leading dot; empty when the last dot is the first character or absent,
or when it is the final character. -/
def suffixOf (p : String) : String :=
  let b := (basename p).data
  match (List.range b.length).filter (fun i => b.getD i ' ' = '.') |>.getLast? with
  | some i => if 0 < i ∧ i < b.length - 1 then String.mk (b.drop i) else ""
  | none => ""

/-- The recognized image extensions (`IMAGE_EXTS`). -/
def IMAGE_EXTS : List String :=
  [".jpg", ".jpeg", ".png", ".heic", ".webp", ".tif", ".tiff"]

/-- Embeds `_is_image`: the lower-cased suffix is a recognized image extension. -/
def isImage (name : String) : Bool := IMAGE_EXTS.contains (toLowerAscii (suffixOf name))

/-- Embeds `_mime_from_name`: fixed lookup table from lower-cased extension to
MIME type; `none` for unknown extensions. -/
def mimeFromName (name : String) : Option String :=
  match toLowerAscii (suffixOf name) with
  | ".jpg" => some "image/jpeg"
  | ".jpeg" => some "image/jpeg"
  | ".png" => some "image/png"
  | ".heic" => some "image/heic"
  | ".webp" => some "image/webp"
  | ".tif" => some "image/tiff"
  | ".tiff" => some "image/tiff"
  | _ => none

/-! ### Python dict access and coercions used by `_normalize_taken_at` -/

/-- Lookup in a dict payload with Python semantics: the latest binding of
a key wins. Returns `none` when the key is absent. -/
def dictFind : PyDict → String → Option PyVal
  | .dnil, _ => none
  | .dcons k v es, key =>
    match dictFind es key with
    | some w => some w
    | none =>
      match k with
      | .vstr s => if s = key then some v else none
      | _ => none

/-- Python `d.get(key, default)` on a value: `none` models the
`AttributeError` raised when the receiver is not a dict. -/
def pyGetD (v : PyVal) (key : String) (dflt : PyVal) : Option PyVal :=
  match v with
  | .vdict es => some ((dictFind es key).getD dflt)
  | _ => none

/-- Python truthiness (`if ts:`). Arbitrary objects (`vother`) are truthy,
as objects without `__bool__`/`__len__` are. -/
def pyTruthy : PyVal → Bool
  | .vnone => false
  | .vbool b => b
  | .vint n => n ≠ 0
  | .vfloat q => q ≠ 0
  | .vstr s => s ≠ ""
  | .vbytes bs => bs ≠ []
  | .vdt _ => true
  | .vlist .nil => false
  | .vlist (.cons _ _) => true
  | .vtuple .nil => false
  | .vtuple (.cons _ _) => true
  | .vdict .dnil => false
  | .vdict (.dcons _ _ _) => true
  | .vother _ => true

/-- Model of Python `int(str)`: optional surrounding ASCII whitespace, an
optional sign, then a non-empty digit string; `none` models `ValueError`. -/
def parseIntPy (s : String) : Option Int :=
  let cs := s.data.dropWhile (fun c => c = ' ' ∨ c = '\t' ∨ c = '\n' ∨ c = '\r')
    |>.reverse.dropWhile (fun c => c = ' ' ∨ c = '\t' ∨ c = '\n' ∨ c = '\r') |>.reverse
  let (sign, digits) :=
    match cs with
    | '-' :: rest => ((-1 : Int), rest)
    | '+' :: rest => ((1 : Int), rest)
    | rest => ((1 : Int), rest)
  if digits ≠ [] ∧ digits.all (fun c => c.isDigit) then
    some (sign * (digits.foldl (fun acc c => acc * 10 + (c.toNat - 48)) (0 : Nat) : Nat))
  else none

/-- Model of Python `int(x)`: ints pass through, booleans map to 0/1,
floats truncate toward zero, numeric strings parse; `none` models the
`TypeError`/`ValueError` raised on anything else. -/
def pyToInt : PyVal → Option Int
  | .vint n => some n
  | .vbool b => some (if b then 1 else 0)
  | .vfloat q => some (q.num.tdiv q.den)
  | .vstr s => parseIntPy s
  | _ => none

/-- Smallest epoch second representable by `datetime` (year 1). -/
def MIN_TS : Int := -62135596800

/-- Largest epoch second representable by `datetime` (year 9999). -/
def MAX_TS : Int := 253402300799

/-- Model of `datetime.fromtimestamp(n, tz=timezone.utc)`: an aware UTC datetime,
failing (`none`) outside the representable year range 1..9999. -/
def fromtimestampUtc (n : Int) : Option DTVal :=
  if MIN_TS ≤ n ∧ n ≤ MAX_TS then some (.awareUtc n) else none

/-- Days in a month of the proleptic Gregorian calendar. -/
def daysInMonth (y mo : Nat) : Nat :=
  if mo = 2 then
    if y % 4 = 0 ∧ (y % 100 ≠ 0 ∨ y % 400 = 0) then 29 else 28
  else if mo = 4 ∨ mo = 6 ∨ mo = 9 ∨ mo = 11 then 30
  else 31

/-- Read a run of 1 to `maxLen` leading digits; returns the value and the
remaining characters, or `none` when no digit is present. -/
def readDigits (maxLen : Nat) (cs : List Char) : Option (Nat × List Char) :=
  let run := (cs.take maxLen).takeWhile (fun c => c.isDigit)
  if run = [] then none
  else some (run.foldl (fun acc c => acc * 10 + (c.toNat - 48)) 0, cs.drop run.length)

/-- Expect a literal character. -/
def expectChar (c : Char) (cs : List Char) : Option (List Char) :=
  match cs with
  | d :: rest => if d = c then some rest else none
  | [] => none

/-- Model of `datetime.strptime(s, "%Y" sep "%m" sep "%d %H:%M:%S")` for a
date separator `sep` (`:` or `-`): digit runs for each field, the whole
string consumed, and the resulting fields valid for `datetime` (year
1..9999, calendar-valid day, 24h clock). Returns a naive datetime. -/
def strptime6 (sep : Char) (s : String) : Option DTVal := do
  let cs := s.data
  let (y, cs) ← readDigits 4 cs
  let cs ← expectChar sep cs
  let (mo, cs) ← readDigits 2 cs
  let cs ← expectChar sep cs
  let (d, cs) ← readDigits 2 cs
  let cs ← expectChar ' ' cs
  let (h, cs) ← readDigits 2 cs
  let cs ← expectChar ':' cs
  let (mi, cs) ← readDigits 2 cs
  let cs ← expectChar ':' cs
  let (sec, cs) ← readDigits 2 cs
  if cs = [] ∧ 1 ≤ y ∧ y ≤ 9999 ∧ 1 ≤ mo ∧ mo ≤ 12 ∧ 1 ≤ d ∧ d ≤ daysInMonth y mo ∧
      h ≤ 23 ∧ mi ≤ 59 ∧ sec ≤ 59 then
    some (.naive y mo d h mi sec)
  else none

/-- The `try` block of `_normalize_taken_at` (`metadata_ingest.py` lines
128-133): fetch the sidecar's `photoTakenTime.timestamp`; any raised
exception (non-dict receiver, unconvertible value, out-of-range epoch)
and any falsy value yield `none`, which falls through to the EXIF
branch. -/
def googleTs (googleMeta : PyVal) : Option DTVal :=
  match pyGetD googleMeta "photoTakenTime" (.vdict .dnil) with
  | none => none
  | some inner =>
    match pyGetD inner "timestamp" .vnone with
    | none => none
    | some ts =>
      if pyTruthy ts then (pyToInt ts).bind fromtimestampUtc else none

/-- The plain `exif_meta.get("datetime_original")` access (the callers of
`_normalize_taken_at` always pass a dict). -/
def exifRawDate (exifMeta : PyVal) : PyVal :=
  match exifMeta with
  | .vdict es => (dictFind es "datetime_original").getD .vnone
  | _ => .vnone

/-- Continuation of `_normalize_taken_at` (see `googleTs` for the `try`
block): the sidecar branch wins when it produced a datetime; otherwise
the EXIF `datetime_original` string is tried against the two formats. -/
def normalize_taken_at (exifMeta googleMeta : PyVal) : Option DTVal :=
  match googleTs googleMeta with
  | some d => some d
  | none =>
    match exifRawDate exifMeta with
    | .vstr s =>
      match strptime6 ':' s with
      | some d => some d
      | none =>
        match strptime6 '-' s with
        | some d => some d
        | none => none
    | _ => none

/-! ### EXIF extraction (`metadata_ingest.py` lines 84-113) -/

/-- The subset of `PIL.ExifTags.TAGS` naming the tag ids this pipeline
reads; ids outside the PIL table fall back to their decimal rendering,
matching `ExifTags.TAGS.get(tag_id, str(tag_id))`. -/
def exifTagName (id : Nat) : String :=
  if id = 271 then "Make"
  else if id = 272 then "Model"
  else if id = 306 then "DateTime"
  else if id = 36867 then "DateTimeOriginal"
  else if id = 42036 then "LensModel"
  else String.mk (natDigits id)

/-- Build the `exif_named` dict: tag ids renamed, values passed through
`_make_json_serializable`. -/
def exifNamed : List (Nat × PyVal) → PyDict
  | [] => .dnil
  | (id, v) :: rest => .dcons (.vstr (exifTagName id)) (sanitize v) (exifNamed rest)

/-- Python `a or b`. -/
def pyOr (a b : PyVal) : PyVal := if pyTruthy a then a else b

/-- Embeds `_parse_exif`: `none` tag data models an exception while opening or
decoding the image (the function then returns `{}`); otherwise the
normalized dict with `make`/`model`/`lens`/`datetime_original`/`raw` keys
is produced, `datetime_original` being `DateTimeOriginal or DateTime`. -/
def parse_exif (tags : Option (List (Nat × PyVal))) : PyVal :=
  match tags with
  | none => .vdict .dnil
  | some ts =>
    let named := exifNamed ts
    let get := fun k => (dictFind named k).getD .vnone
    let takenStr := pyOr (get "DateTimeOriginal") (get "DateTime")
    .vdict (.dcons (.vstr "make") (get "Make")
      (.dcons (.vstr "model") (get "Model")
        (.dcons (.vstr "lens") (get "LensModel")
          (.dcons (.vstr "datetime_original") takenStr
            (.dcons (.vstr "raw") (.vdict named) .dnil)))))

/-! ### Archive scanner / metadata stream
(`metadata_ingest.py` lines 145-206, `_list_zip_entries` lines 25-27) -/

/-- The observable outcomes of the library calls applied to a member's
bytes: whether `zf.read` succeeds, what `json.loads` would return
(`none` models a parse failure), and what `PIL` EXIF extraction would
return (`none` models an exception while opening/decoding the image). -/
structure MemberData where
  readable : Bool
  jsonParse : Option PyVal
  exifTags : Option (List (Nat × PyVal))

/-- A member entry of a container, as reported by `zf.infolist()`. -/
structure ZipEntry where
  filename : String
  file_size : Nat
  isDir : Bool
  data : MemberData

/-- A candidate container file: either listable with its members, or
corrupt/unreadable (listing raises `BadZipFile`/`OSError`). The list is
taken in the sorted order the code establishes. -/
inductive Container where
  | ok (name : String) (entries : List ZipEntry)
  | corrupt (name : String)

/-- One normalized metadata item yielded by `stream_zip_metadata`. -/
structure Item where
  filename : String
  source_uri : String
  file_size : Nat
  mime_type : Option String
  exif : PyVal
  google_json : PyVal
  taken_at : Option DTVal

/-- Embeds `_parse_google_json`: the parsed JSON value, or `{}` when decoding or
parsing raises. -/
def parse_google_json (jsonParse : Option PyVal) : PyVal :=
  (jsonParse.getD (.vdict .dnil))

/-- Model of `zf.read(member)`: resolves a member name to its entry; with duplicate
names the zipfile name table keeps the last entry. -/
def findMember (entries : List ZipEntry) (name : String) : Option ZipEntry :=
  entries.reverse.find? (fun e => e.filename = name)

/-- Build the metadata item for one image entry (`metadata_ingest.py`
lines 167-198): read the exact-sibling `.json` sidecar when present
(read or parse failures degrade to `{}`), read and EXIF-parse the image
bytes (failures degrade to `{}`), resolve the timestamp, and assemble the
normalized record. -/
def mkItem (zipName : String) (names : List String) (entries : List ZipEntry)
    (e : ZipEntry) : Item :=
  let base := e.filename
  let sidecar := base ++ ".json"
  let googleJson : PyVal :=
    if names.contains sidecar then
      match findMember entries sidecar with
      | some se => if se.data.readable then parse_google_json se.data.jsonParse else .vdict .dnil
      | none => .vdict .dnil
    else .vdict .dnil
  let exifMeta : PyVal :=
    if e.data.readable then parse_exif e.data.exifTags else .vdict .dnil
  { filename := basename base
    source_uri := "zip://" ++ zipName ++ "::" ++ base
    file_size := e.file_size
    mime_type := mimeFromName base
    exif := exifMeta
    google_json := googleJson
    taken_at := normalize_taken_at exifMeta googleJson }

/-- Has the produced count reached the limit (`count >= limit`)? -/
def limitHit (limit : Option Nat) (count : Nat) : Bool :=
  match limit with
  | none => false
  | some l => l ≤ count

/-- The inner entry loop of `stream_zip_metadata` for one container:
non-image members are skipped; after each yielded item the count is
incremented and the limit checked, returning early with a `reached` flag.
Returns the yielded items, the updated count, and whether the limit was
reached. -/
def streamEntries (zipName : String) (names : List String) (entries : List ZipEntry) :
    List ZipEntry → Nat → Option Nat → List Item × Nat × Bool
  | [], count, _ => ([], count, false)
  | e :: rest, count, limit =>
    if isImage e.filename then
      if limitHit limit (count + 1) then ([mkItem zipName names entries e], count + 1, true)
      else
        let r := streamEntries zipName names entries rest (count + 1) limit
        (mkItem zipName names entries e :: r.1, r.2.1, r.2.2)
    else streamEntries zipName names entries rest count limit

/-- The result of a streaming run: the items yielded before termination,
how many containers were opened for listing, and whether the run ended by
raising out of a corrupt container. -/
structure StreamOut where
  items : List Item
  opened : Nat
  errored : Bool

/-- Embeds `stream_zip_metadata` (`metadata_ingest.py` lines 145-206) over the
sorted container list: each container is listed (`_list_zip_entries`,
which filters directories and raises on a corrupt container — there is no
handler, so the exception propagates and the stream dies), its image
entries yield items, and reaching the limit stops the whole stream. -/
def streamZipMetadata : List Container → Nat → Option Nat → StreamOut
  | [], _, _ => ⟨[], 0, false⟩
  | .corrupt _ :: _, _, _ => ⟨[], 1, true⟩
  | .ok name entries :: rest, count, limit =>
    let nonDir := entries.filter (fun e => !e.isDir)
    let r := streamEntries name (nonDir.map (fun e => e.filename)) nonDir nonDir count limit
    if r.2.2 then ⟨r.1, 1, false⟩
    else
      let out := streamZipMetadata rest r.2.1 limit
      ⟨r.1 ++ out.items, 1 + out.opened, out.errored⟩

/-! ### Event broadcaster (`backend/app/core/events.py`) -/

/-- An `asyncio.Queue` as used by the broadcaster: `maxsize` 0 means
unbounded (the asyncio default), and `items` the queued events. -/
structure EQueue where
  maxsize : Nat
  items : List PyVal

/-- Model of `asyncio.Queue.full()`: true iff `maxsize` is positive and the queue
holds at least `maxsize` items. -/
def queueFull (q : EQueue) : Bool := 0 < q.maxsize && q.maxsize ≤ q.items.length

/-- Model of `put_nowait`: append the event, or fail (`QueueFull`) when the queue
is full. -/
def putNowait (q : EQueue) (ev : PyVal) : Option EQueue :=
  if queueFull q then none else some { q with items := q.items ++ [ev] }

/-- Embeds `subscribe()` (`events.py` lines 12-16): the freshly registered
delivery channel is `asyncio.Queue()` — default `maxsize` 0, empty. -/
def subscribeQueue : EQueue := { maxsize := 0, items := [] }

/-- Embeds `broadcast_event` (`events.py` lines 24-35): attempt `put_nowait` on
every registered channel; channels that raise `QueueFull` are collected
and discarded from the subscriber set, the others keep the delivered
event. -/
def broadcastEvent (subs : List EQueue) (ev : PyVal) : List EQueue :=
  subs.filterMap (fun q => putNowait q ev)

/-! ### The ORM models (`backend/app/models/photos.py`) and the photo store -/

/-- The attributes (columns) declared on the `Photo` ORM model
(`photos.py` lines 29-54). Note that neither `source_uri` nor
`raw_metadata` is among them, although `_process_single_photo` uses both
and migration `002_add_source_uri` adds a `source_uri` column to the
underlying table. -/
def photoModelAttrs : List String :=
  ["id", "google_id", "filename", "file_size", "mime_type", "taken_at",
   "created_at", "exif_metadata", "embedding", "batch_id"]

/-- Does the `Photo` class expose an attribute? An access to a missing
attribute raises `AttributeError`. -/
def photoModelHas (attr : String) : Bool := photoModelAttrs.contains attr

/-- The field values `_process_single_photo` computes for a photo
(`photo_values`, `metadata_ingest.py` lines 244-253). -/
structure PhotoValues where
  google_id : Option String
  filename : String
  file_size : Nat
  mime_type : Option String
  taken_at : Option DTVal
  raw_metadata : PyVal
  batch_id : String
  source_uri : String

/-- A persisted photo row: surrogate id plus the upsert-managed values. -/
structure PhotoRow where
  id : Nat
  vals : PhotoValues

/-- The photos table with its id sequence. -/
structure PhotoDb where
  rows : List PhotoRow
  nextId : Nat

/-- A persisted `ingest_status` row (`photos.py` lines 10-26); timestamps
are reduced to presence flags. -/
structure BatchRow where
  batch_id : String
  status : String
  processed_files : Nat
  skipped_files : Nat
  error_message : Option String
  completedAt : Bool
deriving DecidableEq, Repr

/-- The `ingest_status` table. -/
abbrev BatchDb := List BatchRow

/-- Build `photo_values` from a metadata item (`metadata_ingest.py` lines
239-253): `google_id` is always `None`, and `raw_metadata` nests the
sanitized EXIF and sidecar structures under the `exif`/`google` keys. -/
def photoValues (item : Item) (batchId : String) : PhotoValues :=
  { google_id := none
    filename := item.filename
    file_size := item.file_size
    mime_type := item.mime_type
    taken_at := item.taken_at
    raw_metadata := .vdict (.dcons (.vstr "exif") (sanitize item.exif)
      (.dcons (.vstr "google") (sanitize item.google_json) .dnil))
    batch_id := batchId
    source_uri := item.source_uri }

/-- Embeds `_process_single_photo` (`metadata_ingest.py` lines 222-278). The
whole body runs in a `try` whose handler returns `(False, False)`;
`persistFail` models an environment-caused exception (connection loss,
constraint violation, ...). Before any query runs, building
`select(Photo).where(Photo.source_uri == ...)` evaluates the class
attribute `Photo.source_uri`; the `Photo` model of `photos.py` declares
no such attribute, so the access raises `AttributeError`, which the
handler also catches. When the attribute exists, the logic looks the row
up solely by `source_uri` (`scalar_one_or_none` raising — hence
`(False, False)` — on more than one match), inserts a fresh row when
there is none, leaves an existing row untouched when `reprocess` is
false, and replaces all of its managed values when `reprocess` is true. -/
def processSinglePhoto (persistFail : Bool) (item : Item) (batchId : String)
    (reprocess : Bool) (pdb : PhotoDb) : PhotoDb × Bool × Bool :=
  if persistFail then (pdb, false, false)
  else if !photoModelHas "source_uri" then (pdb, false, false)
  else
    match pdb.rows.filter (fun r => r.vals.source_uri = item.source_uri) with
    | [] =>
      ({ rows := pdb.rows ++ [⟨pdb.nextId, photoValues item batchId⟩],
         nextId := pdb.nextId + 1 }, true, false)
    | [r] =>
      if reprocess then
        ({ pdb with rows := pdb.rows.map (fun row =>
            if row.id = r.id then { row with vals := photoValues item batchId } else row) },
         true, false)
      else (pdb, false, true)
    | _ => (pdb, false, false)

/-! ### Ingestion orchestrator (`metadata_ingest.py` lines 209-400) -/

/-- An observable side effect of the orchestrator: a cumulative progress
write (`_update_batch_progress`), the terminal `completed` or `error`
status write, or a broadcast to the event fan-out (`broadcast_event` —
present in the vocabulary although the orchestrator never performs it). -/
inductive Effect where
  | progress (batchId : String) (processed skipped : Nat)
  | completed (batchId : String) (processed skipped : Nat)
  | errorMark (batchId : String) (msg : String)
  | broadcast (ev : PyVal)

/-- Is the effect a broadcast to the Event Broadcaster? -/
def Effect.isBroadcast : Effect → Bool
  | .broadcast _ => true
  | _ => false

/-- Embeds `_get_or_create_batch`: reuse the row for the batch id when present,
otherwise insert a fresh `running` row. -/
def getOrCreateBatch (bdb : BatchDb) (batchId : String) : BatchDb :=
  if bdb.any (fun r => r.batch_id = batchId) then bdb
  else bdb ++ [⟨batchId, "running", 0, 0, none, false⟩]

/-- Embeds `_update_batch_progress`: write the cumulative counters onto the
batch row. -/
def updateBatchProgress (bdb : BatchDb) (batchId : String) (p s : Nat) : BatchDb :=
  bdb.map (fun r => if r.batch_id = batchId then
    { r with processed_files := p, skipped_files := s } else r)

/-- The terminal `completed` update (`metadata_ingest.py` lines 373-384). -/
def markCompleted (bdb : BatchDb) (batchId : String) (p s : Nat) : BatchDb :=
  bdb.map (fun r => if r.batch_id = batchId then
    { r with processed_files := p, skipped_files := s,
             status := "completed", completedAt := true } else r)

/-- The terminal `error` update (`metadata_ingest.py` lines 393-399). -/
def markError (bdb : BatchDb) (batchId : String) (msg : String) : BatchDb :=
  bdb.map (fun r => if r.batch_id = batchId then
    { r with status := "error", error_message := some msg } else r)

/-- Process one chunk: every item is dispatched (`asyncio.gather` with
`return_exceptions=True`), each result tuple bumps the processed/skipped
counts; an item whose processing failed contributes to neither. The
shared database threads through the item processors. -/
def processStep (pfail : Item → Bool) (reprocess : Bool) (batchId : String)
    (acc : PhotoDb × Nat × Nat) (it : Item) : PhotoDb × Nat × Nat :=
  let r := processSinglePhoto (pfail it) it batchId reprocess acc.1
  (r.1, acc.2.1 + (if r.2.1 then 1 else 0), acc.2.2 + (if r.2.2 then 1 else 0))

def processChunk (pfail : Item → Bool) (reprocess : Bool) (batchId : String)
    (chunk : List Item) (pdb : PhotoDb) : PhotoDb × Nat × Nat :=
  chunk.foldl (processStep pfail reprocess batchId) (pdb, 0, 0)

/-- The orchestrator's accumulation buffer walk: each item is appended to
the buffer, which is flushed as a full chunk the moment it holds 20
items. -/
def chunkWalk : List Item → List Item → List (List Item) × List Item
  | [], buf => ([], buf)
  | x :: rest, buf =>
    if 20 ≤ (buf ++ [x]).length then
      let r := chunkWalk rest []
      ((buf ++ [x]) :: r.1, r.2)
    else
      let r := chunkWalk rest (buf ++ [x])
      (r.1, r.2)

/-- Split the streamed items as the orchestrator's accumulation loop does:
items are appended to a buffer which is flushed as a full chunk whenever
it reaches 20 items; what remains at stream end (fewer than 20 items) is
the final partial chunk. -/
def splitChunks20 (items : List Item) : List (List Item) × List Item :=
  chunkWalk items []

/-- The orchestrator state while consuming full chunks. -/
structure RunState where
  pdb : PhotoDb
  bdb : BatchDb
  processed : Nat
  skipped : Nat
  effects : List Effect

/-- The per-full-chunk loop (`metadata_ingest.py` lines 326-349): process
the chunk, add its counts to the cumulative counters, write them with
`_update_batch_progress`, and continue. -/
def runFull (pfail : Item → Bool) (reprocess : Bool) (batchId : String) :
    List (List Item) → RunState → RunState
  | [], st => st
  | c :: cs, st =>
    let r := processChunk pfail reprocess batchId c st.pdb
    runFull pfail reprocess batchId cs
      { pdb := r.1
        bdb := updateBatchProgress st.bdb batchId (st.processed + r.2.1) (st.skipped + r.2.2)
        processed := st.processed + r.2.1
        skipped := st.skipped + r.2.2
        effects := st.effects ++ [.progress batchId (st.processed + r.2.1) (st.skipped + r.2.2)] }

/-- The message of the exception a corrupt container raises out of
`_list_zip_entries`. -/
def zipErrorMsg : String := "File is not a zip file"

/-- The complete result of an ingestion run. -/
structure IngestOut where
  pdb : PhotoDb
  bdb : BatchDb
  effects : List Effect
  result : Except String (String × Nat)

/-- Embeds `ingest_takeout_metadata` (`metadata_ingest.py` lines 292-400):
resolve/create the batch row (`genSuffix` models the generated uuid),
stream metadata items, process full chunks of 20 as they fill (each
followed by a cumulative progress write), and then either — when the
stream died in a corrupt container — mark the batch `error`, discard the
pending partial chunk and re-raise, or process the final partial chunk
and write the terminal `completed` row, returning the batch id and the
processed count. -/
def ingestTakeoutMetadata (zips : List Container) (pdb0 : PhotoDb) (bdb0 : BatchDb)
    (batchIdOpt : Option String) (genSuffix : String) (limit : Option Nat)
    (reprocess : Bool) (pfail : Item → Bool) : IngestOut :=
  let batchId := match batchIdOpt with
    | some b => b
    | none => "batch-" ++ genSuffix
  let bdb1 := getOrCreateBatch bdb0 batchId
  let so := streamZipMetadata zips 0 limit
  let split := splitChunks20 so.items
  let st := runFull pfail reprocess batchId split.1 ⟨pdb0, bdb1, 0, 0, []⟩
  if so.errored then
    { pdb := st.pdb
      bdb := markError st.bdb batchId zipErrorMsg
      effects := st.effects ++ [.errorMark batchId zipErrorMsg]
      result := .error zipErrorMsg }
  else
    let r := processChunk pfail reprocess batchId split.2 st.pdb
    { pdb := r.1
      bdb := markCompleted st.bdb batchId (st.processed + r.2.1) (st.skipped + r.2.2)
      effects := st.effects ++ [.completed batchId (st.processed + r.2.1) (st.skipped + r.2.2)]
      result := .ok (batchId, st.processed + r.2.1) }

/-! ### Specification-side helpers used to state the claims -/

/-- The per-chunk (processed, skipped) deltas along the database thread. -/
def chunkDeltas (pfail : Item → Bool) (reprocess : Bool) (batchId : String) :
    List (List Item) → PhotoDb → List (Nat × Nat)
  | [], _ => []
  | c :: cs, pdb =>
    let r := processChunk pfail reprocess batchId c pdb
    (r.2.1, r.2.2) :: chunkDeltas pfail reprocess batchId cs r.1

/-- The photo database after a list of chunks. -/
def foldChunksPdb (pfail : Item → Bool) (reprocess : Bool) (batchId : String) :
    List (List Item) → PhotoDb → PhotoDb
  | [], pdb => pdb
  | c :: cs, pdb =>
    foldChunksPdb pfail reprocess batchId cs
      (processChunk pfail reprocess batchId c pdb).1

/-- Running partial sums of a list of count deltas, starting from the
given cumulative counters. -/
def cumFrom (p s : Nat) : List (Nat × Nat) → List (Nat × Nat)
  | [] => []
  | (dp, ds) :: rest => (p + dp, s + ds) :: cumFrom (p + dp) (s + ds) rest

/-- The number of image-like members of a container (a corrupt container
contributes none before raising). -/
def imageCount : Container → Nat
  | .ok _ entries => ((entries.filter (fun e => !e.isDir)).filter
      (fun e => isImage e.filename)).length
  | .corrupt _ => 0

/-- Total image-like members across containers. -/
def imageCountAll (zips : List Container) : Nat := (zips.map imageCount).sum

/-- Is the container listable? -/
def Container.isOk : Container → Bool
  | .ok _ _ => true
  | .corrupt _ => false

/-- Specification-side accessor: the EXIF `datetime_original` entry when
it is a string (the only case the fallback parses). -/
def exifDateStr (exifMeta : PyVal) : Option String :=
  match exifRawDate exifMeta with
  | .vstr s => some s
  | _ => none

/-- The status and error message of a batch row as observed through a
status query. -/
def batchStatusOf (out : IngestOut) (batchId : String) : Option (String × Option String) :=
  (out.bdb.find? (fun r => r.batch_id = batchId)).map (fun r => (r.status, r.error_message))

/-! ### Concrete fixtures used by counterexamples, witnesses and
evaluations -/

/-- The image member of the end-to-end scenario (its bytes are not a
decodable image, so EXIF extraction degrades to `{}`). -/
def c1img : ZipEntry := ⟨"A/IMG_1.jpg", 3, false, ⟨true, none, none⟩⟩

/-- The sidecar member `A/IMG_1.jpg.json` carrying
`photoTakenTime.timestamp = "1700000000"`. -/
def c1side : ZipEntry :=
  ⟨"A/IMG_1.jpg.json", 5, false,
    ⟨true, some (.vdict (.dcons (.vstr "photoTakenTime")
      (.vdict (.dcons (.vstr "timestamp") (.vstr "1700000000") .dnil)) .dnil)), none⟩⟩

/-- The non-image member `A/note.txt`. -/
def c1txt : ZipEntry := ⟨"A/note.txt", 2, false, ⟨true, none, none⟩⟩

/-- The end-to-end scenario's root: one container with the three members. -/
def c1zips : List Container := [.ok "takeout-001.zip" [c1img, c1side, c1txt]]

/-- The end-to-end run: fresh stores, explicit batch id `b1`, no limit,
no reprocess, no environment-caused persistence failures. -/
def c1out : IngestOut :=
  ingestTakeoutMetadata c1zips ⟨[], 1⟩ [] (some "b1") "g" none false (fun _ => false)

/-- The single metadata item the end-to-end scenario streams. -/
def c1item : Item := mkItem "takeout-001.zip"
  ["A/IMG_1.jpg", "A/IMG_1.jpg.json", "A/note.txt"] [c1img, c1side, c1txt] c1img

/-- A second tiny container used by the limit/corruption fixtures. -/
def cSecondZip : Container := .ok "takeout-002.zip" [⟨"B/IMG_2.jpg", 4, false, ⟨true, none, none⟩⟩]

/-- A container whose listing raises (`BadZipFile`). -/
def cBadZip : Container := .corrupt "broken.zip"

/-- EXIF metadata carrying `datetime_original = "2020:01:01 00:00:00"`. -/
def c6exif : PyVal :=
  .vdict (.dcons (.vstr "datetime_original") (.vstr "2020:01:01 00:00:00") .dnil)

/-- Sidecar metadata whose `photoTakenTime.timestamp` is the number `0` —
a numeric capture-time field that is falsy in Python. -/
def c6goog : PyVal :=
  .vdict (.dcons (.vstr "photoTakenTime")
    (.vdict (.dcons (.vstr "timestamp") (.vint 0) .dnil)) .dnil)

/-- A dict whose two distinct keys collapse after NUL-stripping: the
Python value \x7b"a\x00": 1, "a": 2\x7d. -/
def c7clash : PyVal :=
  .vdict (.dcons (.vstr (String.mk ['a', nulChar])) (.vint 1)
    (.dcons (.vstr "a") (.vint 2) .dnil))

/-- A nested value with NUL-carrying strings and a NUL-carrying key whose
sanitized keys stay distinct. -/
def c7nested : PyVal :=
  .vdict (.dcons (.vstr "k") (.vlist (.cons (.vint 3) (.cons (.vbytes [104, 0, 105]) .nil)))
    (.dcons (.vstr (String.mk ['m', nulChar])) (.vbool true) .dnil))

/-- A metadata item with a fresh source URI, used to evaluate the upsert. -/
def c2item : Item :=
  { filename := "IMG_9.jpg"
    source_uri := "zip://t.zip::A/IMG_9.jpg"
    file_size := 7
    mime_type := some "image/jpeg"
    exif := .vdict .dnil
    google_json := .vdict .dnil
    taken_at := none }

/-! ## Theorems -/

/-! ### String sanitization facts -/

theorem noNul_stripNul (s : String) : noNul (stripNul s) = true := by
  simp only [noNul, stripNul, List.all_eq_true]
  intro c hc
  simpa using (List.mem_filter.mp hc).2

theorem stripNul_of_noNul (s : String) (h : noNul s = true) : stripNul s = s := by
  cases s with
  | mk data =>
    simp only [stripNul]
    congr 1
    apply List.filter_eq_self.mpr
    intro c hc
    simpa using (List.all_eq_true.mp h) c hc

theorem stripNul_idem (s : String) : stripNul (stripNul s) = stripNul s :=
  stripNul_of_noNul _ (noNul_stripNul s)

theorem digitChar_ne_nul (r : Nat) : digitChar r ≠ nulChar := by
  unfold digitChar
  split_ifs <;> decide

theorem natDigits_all (n : Nat) :
    (natDigits n).all (fun c => c ≠ nulChar) = true := by
  induction n using Nat.strong_induction_on with
  | _ n ih =>
    rw [natDigits]
    split
    · simpa using digitChar_ne_nul n
    · rename_i h
      rw [List.all_append]
      simp only [Bool.and_eq_true]
      exact ⟨ih (n / 10) (Nat.div_lt_self (by omega) (by omega)),
        by simpa using digitChar_ne_nul (n % 10)⟩

theorem all_replicate_zeroChar (k : Nat) :
    (List.replicate k '0').all (fun c => c ≠ nulChar) = true := by
  induction k with
  | zero => rfl
  | succ k ih =>
    simp only [List.replicate_succ, List.all_cons, ih, Bool.and_true]
    decide

theorem padNat_all (w n : Nat) :
    (padNat w n).all (fun c => c ≠ nulChar) = true := by
  simp only [padNat, List.all_append, Bool.and_eq_true]
  exact ⟨all_replicate_zeroChar _, natDigits_all n⟩

theorem isoformat_noNul (d : DTVal) : noNul (isoformat d) = true := by
  cases d with
  | naive y mo dd h mi s =>
    show List.all _ _ = true
    simp only [isoformat, List.all_append, List.all_cons, Bool.and_eq_true]
    refine ⟨⟨⟨⟨⟨padNat_all 4 y, by decide, padNat_all 2 mo⟩, by decide, padNat_all 2 dd⟩,
      by decide, padNat_all 2 h⟩, by decide, padNat_all 2 mi⟩, by decide, padNat_all 2 s⟩
  | awareUtc n =>
    show List.all _ _ = true
    simp only [isoformat, List.all_append, Bool.and_eq_true]
    refine ⟨⟨?_, natDigits_all n.natAbs⟩, by decide⟩
    split <;> decide

theorem sanitizeKey_noNul (k : PyVal) : noNul (sanitizeKey k) = true := by
  cases k <;> simp [sanitizeKey, noNul_stripNul]

theorem stripNul_sanitizeKey (k : PyVal) : stripNul (sanitizeKey k) = sanitizeKey k :=
  stripNul_of_noNul _ (sanitizeKey_noNul k)

/-! ### Deep sanitization: storage safety, shape preservation, idempotence -/

theorem dictInduction (motive : PyDict → Prop) (dnil : motive .dnil)
    (dcons : ∀ k v es, motive es → motive (.dcons k v es)) : ∀ d, motive d
  | .dnil => dnil
  | .dcons k v es => dcons k v es (dictInduction motive dnil dcons es)

theorem appendDict_dnil : ∀ d : PyDict, appendDict d .dnil = d := by
  intro d
  induction d using dictInduction with
  | dnil => rfl
  | dcons k v es ih => simp [appendDict, ih]

theorem appendDict_snoc (k : PyVal) (v : PyVal) :
    ∀ (acc x : PyDict),
      appendDict (appendDict acc (.dcons k v .dnil)) x =
        appendDict acc (.dcons k v x) := by
  intro acc x
  induction acc using dictInduction with
  | dnil => rfl
  | dcons k0 v0 es ih => simp [appendDict, ih]

theorem keyMem_append (key : String) :
    ∀ a b : PyDict, keyMem key (appendDict a b) = (keyMem key a || keyMem key b) := by
  intro a b
  induction a using dictInduction with
  | dnil => simp [appendDict, keyMem]
  | dcons k0 v0 es ih => simp [appendDict, keyMem, ih, Bool.or_assoc]

theorem freshAll_dnil : ∀ es : PyDict, freshAll es .dnil = true := by
  intro es
  induction es using dictInduction with
  | dnil => rfl
  | dcons k v tl ih => simp [freshAll, keyMem, ih]

theorem freshAll_append (a b : PyDict) :
    ∀ es : PyDict, freshAll es (appendDict a b) = (freshAll es a && freshAll es b) := by
  intro es
  induction es using dictInduction with
  | dnil => simp [freshAll]
  | dcons k v tl ih =>
    simp only [freshAll, keyMem_append, ih, Bool.not_or]
    cases keyMem (sanitizeKey k) a <;> cases keyMem (sanitizeKey k) b <;>
      cases freshAll tl a <;> cases freshAll tl b <;> simp

theorem freshAll_single (key : String) (v : PyVal) (hk : noNul key = true) :
    ∀ es : PyDict, freshAll es (.dcons (.vstr key) v .dnil) = !keyMem key es := by
  have hkk : sanitizeKey (.vstr key) = key := by
    show stripNul key = key
    exact stripNul_of_noNul _ hk
  intro es
  induction es using dictInduction with
  | dnil => simp [freshAll, keyMem]
  | dcons k0 v0 tl ih =>
    by_cases h : sanitizeKey k0 = key
    · simp [freshAll, keyMem, ih, hkk, h]
    · have h' : ¬ key = sanitizeKey k0 := fun e => h e.symm
      simp [freshAll, keyMem, ih, hkk, h, h']

theorem dictAssign_fresh (k : String) (v : PyVal) (hk : noNul k = true) :
    ∀ d : PyDict, keyMem k d = false →
      dictAssign d k v = appendDict d (.dcons (.vstr k) v .dnil) := by
  intro d
  induction d using dictInduction with
  | dnil => intro _; rfl
  | dcons k0 v0 es ih =>
    intro hm
    have hm' : ¬(sanitizeKey k0 = k) ∧ keyMem k es = false := by
      simpa [keyMem] using hm
    cases k0 with
    | vstr s0 =>
      have hs : ¬ s0 = k := by
        intro he
        subst he
        exact hm'.1 (by show stripNul s0 = s0; exact stripNul_of_noNul _ hk)
      simp [dictAssign, hs, appendDict, ih hm'.2]
    | vnone => simp [dictAssign, appendDict, ih hm'.2]
    | vbool b => simp [dictAssign, appendDict, ih hm'.2]
    | vint n => simp [dictAssign, appendDict, ih hm'.2]
    | vfloat q => simp [dictAssign, appendDict, ih hm'.2]
    | vbytes bs => simp [dictAssign, appendDict, ih hm'.2]
    | vdt dt => simp [dictAssign, appendDict, ih hm'.2]
    | vlist xs => simp [dictAssign, appendDict, ih hm'.2]
    | vtuple xs => simp [dictAssign, appendDict, ih hm'.2]
    | vdict es2 => simp [dictAssign, appendDict, ih hm'.2]
    | vother r => simp [dictAssign, appendDict, ih hm'.2]

theorem keyMem_assign (k key : String) (v : PyVal) (hk : noNul k = true) :
    ∀ d : PyDict, keysCanonical d = true →
      keyMem key (dictAssign d k v) = (keyMem key d || decide (k = key)) := by
  have hkk : sanitizeKey (.vstr k) = k := by
    show stripNul k = k
    exact stripNul_of_noNul _ hk
  intro d
  induction d using dictInduction with
  | dnil => intro _; simp [dictAssign, keyMem, hkk]
  | dcons k0 v0 es ih =>
    intro hc
    cases k0 with
    | vstr s0 =>
      have hcs : noNul s0 = true ∧ keysCanonical es = true := by
        simpa [keysCanonical] using hc
      have hs0 : sanitizeKey (.vstr s0) = s0 := by
        show stripNul s0 = s0
        exact stripNul_of_noNul _ hcs.1
      by_cases h : s0 = k
      · subst h
        by_cases h2 : s0 = key
        · simp only [dictAssign, if_pos rfl, keyMem, hs0]
          simp [h2]
        · simp only [dictAssign, if_pos rfl, keyMem, hs0]
          simp [h2]
      · simp [dictAssign, h, keyMem, hs0, ih hcs.2, Bool.or_assoc]
    | vnone => simp [keysCanonical] at hc
    | vbool b => simp [keysCanonical] at hc
    | vint n => simp [keysCanonical] at hc
    | vfloat q => simp [keysCanonical] at hc
    | vbytes bs => simp [keysCanonical] at hc
    | vdt dt => simp [keysCanonical] at hc
    | vlist xs => simp [keysCanonical] at hc
    | vtuple xs => simp [keysCanonical] at hc
    | vdict es2 => simp [keysCanonical] at hc
    | vother r => simp [keysCanonical] at hc

theorem dictAssign_keysCanonical (k : String) (v : PyVal) (hk : noNul k = true) :
    ∀ d : PyDict, keysCanonical d = true → keysCanonical (dictAssign d k v) = true := by
  intro d
  induction d using dictInduction with
  | dnil => intro _; simp [dictAssign, keysCanonical, hk]
  | dcons k0 v0 es ih =>
    intro hc
    cases k0 with
    | vstr s0 =>
      have hcs : noNul s0 = true ∧ keysCanonical es = true := by
        simpa [keysCanonical] using hc
      by_cases h : s0 = k
      · simp [dictAssign, h, keysCanonical, hk, hcs.1, hcs.2]
      · simp [dictAssign, h, keysCanonical, hcs.1, ih hcs.2]
    | vnone => simp [keysCanonical] at hc
    | vbool b => simp [keysCanonical] at hc
    | vint n => simp [keysCanonical] at hc
    | vfloat q => simp [keysCanonical] at hc
    | vbytes bs => simp [keysCanonical] at hc
    | vdt dt => simp [keysCanonical] at hc
    | vlist xs => simp [keysCanonical] at hc
    | vtuple xs => simp [keysCanonical] at hc
    | vdict es2 => simp [keysCanonical] at hc
    | vother r => simp [keysCanonical] at hc

theorem dictAssign_distinct (k : String) (v : PyVal) (hk : noNul k = true) :
    ∀ d : PyDict, keysCanonical d = true → distinctKeys d = true →
      distinctKeys (dictAssign d k v) = true := by
  intro d
  induction d using dictInduction with
  | dnil => intro _ _; simp [dictAssign, distinctKeys, keyMem]
  | dcons k0 v0 es ih =>
    intro hc hd
    cases k0 with
    | vstr s0 =>
      have hcs : noNul s0 = true ∧ keysCanonical es = true := by
        simpa [keysCanonical] using hc
      have hs0 : sanitizeKey (.vstr s0) = s0 := by
        show stripNul s0 = s0
        exact stripNul_of_noNul _ hcs.1
      have hds : keyMem s0 es = false ∧ distinctKeys es = true := by
        simpa [distinctKeys, hs0] using hd
      by_cases h : s0 = k
      · subst h
        simp only [dictAssign, if_pos rfl, distinctKeys, hs0]
        simp [hds.1, hds.2]
      · have hkne : ¬ k = s0 := fun e => h e.symm
        simp [dictAssign, h, distinctKeys, hs0,
          keyMem_assign k s0 v hk es hcs.2, hds.1, hkne, ih hcs.2 hds.2]
    | vnone => simp [keysCanonical] at hc
    | vbool b => simp [keysCanonical] at hc
    | vint n => simp [keysCanonical] at hc
    | vfloat q => simp [keysCanonical] at hc
    | vbytes bs => simp [keysCanonical] at hc
    | vdt dt => simp [keysCanonical] at hc
    | vlist xs => simp [keysCanonical] at hc
    | vtuple xs => simp [keysCanonical] at hc
    | vdict es2 => simp [keysCanonical] at hc
    | vother r => simp [keysCanonical] at hc

theorem dictAssign_safe (k : String) (v : PyVal) (hk : noNul k = true)
    (hv : sanitizedB v = true) :
    ∀ d : PyDict, sanitizedDictB d = true → sanitizedDictB (dictAssign d k v) = true := by
  intro d
  induction d using dictInduction with
  | dnil => intro _; simp [dictAssign, sanitizedDictB, hk, hv]
  | dcons k0 v0 es ih =>
    intro hc
    cases k0 with
    | vstr s0 =>
      have hcs : noNul s0 = true ∧ sanitizedB v0 = true ∧ sanitizedDictB es = true := by
        simpa [sanitizedDictB, and_assoc] using hc
      by_cases h : s0 = k
      · simp [dictAssign, h, sanitizedDictB, hk, hcs.1, hv, hcs.2.2]
      · simp [dictAssign, h, sanitizedDictB, hcs.1, hcs.2.1, ih hcs.2.2]
    | vnone => simp [sanitizedDictB] at hc
    | vbool b => simp [sanitizedDictB] at hc
    | vint n => simp [sanitizedDictB] at hc
    | vfloat q => simp [sanitizedDictB] at hc
    | vbytes bs => simp [sanitizedDictB] at hc
    | vdt dt => simp [sanitizedDictB] at hc
    | vlist xs => simp [sanitizedDictB] at hc
    | vtuple xs => simp [sanitizedDictB] at hc
    | vdict es2 => simp [sanitizedDictB] at hc
    | vother r => simp [sanitizedDictB] at hc

theorem dictAssign_valsFixed (k : String) (v : PyVal) (hv : sanitize v = v) :
    ∀ d : PyDict, ValsFixed d → ValsFixed (dictAssign d k v) := by
  intro d
  induction d using dictInduction with
  | dnil => intro _; exact ⟨hv, trivial⟩
  | dcons k0 v0 es ih =>
    intro hc
    obtain ⟨h1, h2⟩ : sanitize v0 = v0 ∧ ValsFixed es := hc
    cases k0 with
    | vstr s0 =>
      by_cases h : s0 = k
      · simpa [dictAssign, h, ValsFixed] using ⟨hv, h2⟩
      · simpa [dictAssign, h, ValsFixed] using ⟨h1, ih h2⟩
    | vnone => exact ⟨h1, ih h2⟩
    | vbool b => exact ⟨h1, ih h2⟩
    | vint n => exact ⟨h1, ih h2⟩
    | vfloat q => exact ⟨h1, ih h2⟩
    | vbytes bs => exact ⟨h1, ih h2⟩
    | vdt dt => exact ⟨h1, ih h2⟩
    | vlist xs => exact ⟨h1, ih h2⟩
    | vtuple xs => exact ⟨h1, ih h2⟩
    | vdict es2 => exact ⟨h1, ih h2⟩
    | vother r => exact ⟨h1, ih h2⟩

theorem buildDict_append :
    ∀ es acc : PyDict, freshAll es acc = true → distinctKeys es = true →
      sanitizeDictInto es acc = appendDict acc (sanitizeEntries es) := by
  intro es
  induction es using dictInduction with
  | dnil => intro acc _ _; simp [sanitizeDictInto, sanitizeEntries, appendDict_dnil]
  | dcons k v tl ih =>
    intro acc hf hd
    have hf' : keyMem (sanitizeKey k) acc = false ∧ freshAll tl acc = true := by
      simpa [freshAll] using hf
    have hd' : keyMem (sanitizeKey k) tl = false ∧ distinctKeys tl = true := by
      simpa [distinctKeys] using hd
    simp only [sanitizeDictInto, sanitizeEntries]
    rw [dictAssign_fresh (sanitizeKey k) (sanitize v) (sanitizeKey_noNul k) acc hf'.1]
    rw [ih _ (by
      rw [freshAll_append, freshAll_single (sanitizeKey k) (sanitize v) (sanitizeKey_noNul k)]
      simp [hf'.2, hd'.1]) hd'.2]
    rw [appendDict_snoc]

theorem sanitizeEntries_fixed :
    ∀ d : PyDict, keysCanonical d = true → ValsFixed d → sanitizeEntries d = d := by
  intro d
  induction d using dictInduction with
  | dnil => intro _ _; rfl
  | dcons k v es ih =>
    intro hc hv
    obtain ⟨h1, h2⟩ : sanitize v = v ∧ ValsFixed es := hv
    cases k with
    | vstr s0 =>
      have hcs : noNul s0 = true ∧ keysCanonical es = true := by
        simpa [keysCanonical] using hc
      have hs0 : sanitizeKey (.vstr s0) = s0 := by
        show stripNul s0 = s0
        exact stripNul_of_noNul _ hcs.1
      simp [sanitizeEntries, hs0, h1, ih hcs.2 h2]
    | vnone => simp [keysCanonical] at hc
    | vbool b => simp [keysCanonical] at hc
    | vint n => simp [keysCanonical] at hc
    | vfloat q => simp [keysCanonical] at hc
    | vbytes bs => simp [keysCanonical] at hc
    | vdt dt => simp [keysCanonical] at hc
    | vlist xs => simp [keysCanonical] at hc
    | vtuple xs => simp [keysCanonical] at hc
    | vdict es2 => simp [keysCanonical] at hc
    | vother r => simp [keysCanonical] at hc

theorem sanitizeDictInto_fixed (d : PyDict) (hc : keysCanonical d = true)
    (hd : distinctKeys d = true) (hv : ValsFixed d) :
    sanitizeDictInto d .dnil = d := by
  rw [buildDict_append d .dnil (freshAll_dnil d) hd]
  show sanitizeEntries d = d
  exact sanitizeEntries_fixed d hc hv

theorem sanitizeDictInto_canon :
    ∀ es acc : PyDict, keysCanonical acc = true → distinctKeys acc = true →
      keysCanonical (sanitizeDictInto es acc) = true ∧
        distinctKeys (sanitizeDictInto es acc) = true := by
  intro es
  induction es using dictInduction with
  | dnil => intro acc hc hd; exact ⟨hc, hd⟩
  | dcons k v tl ih =>
    intro acc hc hd
    exact ih _ (dictAssign_keysCanonical (sanitizeKey k) (sanitize v)
        (sanitizeKey_noNul k) acc hc)
      (dictAssign_distinct (sanitizeKey k) (sanitize v) (sanitizeKey_noNul k) acc hc hd)

theorem sanitizeDictInto_valsFixed :
    ∀ es acc : PyDict, ValsFixed acc → DictValsIdem es →
      ValsFixed (sanitizeDictInto es acc) := by
  intro es
  induction es using dictInduction with
  | dnil => intro acc h _; exact h
  | dcons k v tl ih =>
    intro acc h1 h2
    obtain ⟨hv, htl⟩ : sanitize (sanitize v) = sanitize v ∧ DictValsIdem tl := h2
    exact ih _ (dictAssign_valsFixed (sanitizeKey k) (sanitize v) hv acc h1) htl

mutual
theorem sanitize_safe : ∀ v : PyVal, sanitizedB (sanitize v) = true
  | .vnone => rfl
  | .vbool _ => rfl
  | .vint _ => rfl
  | .vfloat _ => rfl
  | .vstr s => by simp [sanitize, sanitizedB, noNul_stripNul]
  | .vbytes bs => by simp [sanitize, sanitizedB, noNul_stripNul]
  | .vdt d => by simp [sanitize, sanitizedB, isoformat_noNul]
  | .vother r => by simp [sanitize, sanitizedB, noNul_stripNul]
  | .vlist xs => by simp [sanitize, sanitizedB, sanitizeList_safe xs]
  | .vtuple xs => by simp [sanitize, sanitizedB, sanitizeList_safe xs]
  | .vdict es => by simp [sanitize, sanitizedB, sanitizeDictInto_safe es .dnil rfl]

theorem sanitizeList_safe : ∀ xs : PyList, sanitizedListB (sanitizeList xs) = true
  | .nil => rfl
  | .cons x xs => by
    simp [sanitizeList, sanitizedListB, sanitize_safe x, sanitizeList_safe xs]

theorem sanitizeDictInto_safe : ∀ es acc : PyDict, sanitizedDictB acc = true →
    sanitizedDictB (sanitizeDictInto es acc) = true
  | .dnil, _, h => h
  | .dcons k v es, acc, h =>
    sanitizeDictInto_safe es _
      (dictAssign_safe (sanitizeKey k) (sanitize v) (sanitizeKey_noNul k)
        (sanitize_safe v) acc h)
end

mutual
theorem sanitize_shape : ∀ v : PyVal, noKeyClash v = true → sameShape v (sanitize v) = true
  | .vnone, _ => rfl
  | .vbool _, _ => rfl
  | .vint _, _ => rfl
  | .vfloat _, _ => rfl
  | .vstr _, _ => rfl
  | .vbytes _, _ => rfl
  | .vdt _, _ => rfl
  | .vother _, _ => rfl
  | .vlist xs, h => by
    have h' : noKeyClashList xs = true := by simpa [noKeyClash] using h
    simp [sanitize, sameShape, sanitizeList_shape xs h']
  | .vtuple xs, h => by
    have h' : noKeyClashList xs = true := by simpa [noKeyClash] using h
    simp [sanitize, sameShape, sanitizeList_shape xs h']
  | .vdict es, h => by
    have h' : distinctKeys es = true ∧ noKeyClashDict es = true := by
      simpa [noKeyClash] using h
    have hsh := sanitizeEntries_shape es h'.2
    simp only [sanitize, sameShape]
    rw [buildDict_append es .dnil (freshAll_dnil es) h'.1]
    exact hsh

theorem sanitizeList_shape :
    ∀ xs : PyList, noKeyClashList xs = true → sameShapeList xs (sanitizeList xs) = true
  | .nil, _ => rfl
  | .cons x xs, h => by
    have h' : noKeyClash x = true ∧ noKeyClashList xs = true := by
      simpa [noKeyClashList] using h
    simp [sanitizeList, sameShapeList, sanitize_shape x h'.1, sanitizeList_shape xs h'.2]

theorem sanitizeEntries_shape :
    ∀ es : PyDict, noKeyClashDict es = true → sameShapeDict es (sanitizeEntries es) = true
  | .dnil, _ => rfl
  | .dcons k v es, h => by
    have h' : noKeyClash v = true ∧ noKeyClashDict es = true := by
      simpa [noKeyClashDict] using h
    simp [sanitizeEntries, sameShapeDict, sanitize_shape v h'.1,
      sanitizeEntries_shape es h'.2]
end

mutual
theorem sanitize_idem : ∀ v : PyVal, sanitize (sanitize v) = sanitize v
  | .vnone => rfl
  | .vbool _ => rfl
  | .vint _ => rfl
  | .vfloat _ => rfl
  | .vstr s => by simp [sanitize, stripNul_idem]
  | .vbytes bs => by simp [sanitize, stripNul_idem]
  | .vdt d => by simp [sanitize, stripNul_of_noNul _ (isoformat_noNul d)]
  | .vother r => by simp [sanitize, stripNul_idem]
  | .vlist xs => by simp [sanitize, sanitizeList_idem xs]
  | .vtuple xs => by simp [sanitize, sanitizeList_idem xs]
  | .vdict es => by
    have hcanon := sanitizeDictInto_canon es .dnil rfl rfl
    have hvals := sanitizeDictInto_valsFixed es .dnil trivial (sanitizeDict_vals_idem es)
    simp only [sanitize]
    exact congrArg PyVal.vdict
      (sanitizeDictInto_fixed _ hcanon.1 hcanon.2 hvals)

theorem sanitizeList_idem : ∀ xs : PyList, sanitizeList (sanitizeList xs) = sanitizeList xs
  | .nil => rfl
  | .cons x xs => by
    simp [sanitizeList, sanitize_idem x, sanitizeList_idem xs]

theorem sanitizeDict_vals_idem : ∀ es : PyDict, DictValsIdem es
  | .dnil => trivial
  | .dcons _ v es => ⟨sanitize_idem v, sanitizeDict_vals_idem es⟩
end

/-- C7 counterexample: the Python dict \x7b"a\x00": 1, "a": 2\x7d has two
entries, but the sanitizer's dict comprehension assigns both under the
stripped key "a", so the output is the one-entry dict \x7b"a": 2\x7d — the
nesting structure is not intact at exactly an input with a NUL-carrying
mapping key. -/
theorem c7_key_collapse_counterexample :
    sanitize c7clash = .vdict (.dcons (.vstr "a") (.vint 2) .dnil) ∧
    sameShape c7clash (sanitize c7clash) = false :=
  ⟨rfl, rfl⟩

/-- C7 (amended): deep sanitization over any nested input produces a
structure in which every string value and every mapping key is free of
NUL characters (and only JSON-storable constructors remain), numbers and
booleans pass through unchanged, byte strings are decoded to text without
failing, and unrecognized leaf types are stringified. The nesting
structure is preserved entry for entry provided no mapping (at any depth)
has two keys that become equal after stringification and NUL-stripping;
entries whose keys do collide collapse into one (first position, last
value), as the dict comprehension assigns them. -/
theorem c7_sanitize_deep_clean (v : PyVal) :
    sanitizedB (sanitize v) = true ∧
    (noKeyClash v = true → sameShape v (sanitize v) = true) ∧
    (∀ n : Int, sanitize (.vint n) = .vint n) ∧
    (∀ q : Rat, sanitize (.vfloat q) = .vfloat q) ∧
    (∀ b : Bool, sanitize (.vbool b) = .vbool b) ∧
    (∀ bs : List Nat,
      sanitize (.vbytes bs) = .vstr (stripNul (String.mk (utf8DecodeIgnore bs)))) ∧
    (∀ r : String, sanitize (.vother r) = .vstr (stripNul r)) :=
  ⟨sanitize_safe v, sanitize_shape v, fun _ => rfl, fun _ => rfl, fun _ => rfl,
    fun _ => rfl, fun _ => rfl⟩

/-- Witness for `c7_sanitize_deep_clean`: a nested dict with NUL-carrying
strings, bytes and a NUL-carrying key whose sanitized keys stay distinct —
the output is storage-safe and the structure is preserved. -/
theorem c7_sanitize_deep_clean_witness :
    sanitizedB (sanitize c7nested) = true ∧
    sameShape c7nested (sanitize c7nested) = true := by
  have h := c7_sanitize_deep_clean c7nested
  exact ⟨h.1, h.2.1 (by rfl)⟩

/-- C10: deep sanitization is idempotent — applying
`_make_json_serializable` to its own output returns that output, so
already-sanitized structures are fixed points (in particular, the first
pass leaves every mapping with pairwise-distinct NUL-free string keys, on
which the second pass's comprehension is the identity). -/
theorem c10_sanitize_idempotent (v : PyVal) : sanitize (sanitize v) = sanitize v :=
  sanitize_idem v

/-! ### Event broadcaster -/

theorem broadcast_filter_map (subs : List EQueue) (ev : PyVal) :
    broadcastEvent subs ev =
      (subs.filter (fun q => !queueFull q)).map
        (fun q => { q with items := q.items ++ [ev] }) := by
  induction subs with
  | nil => rfl
  | cons q qs ih =>
    by_cases h : queueFull q
    · simp [broadcastEvent, putNowait, h, List.filter_cons] at ih ⊢
      exact ih
    · simp [broadcastEvent, putNowait, h, List.filter_cons] at ih ⊢
      exact ih

/-- C8 counterexample: `subscribe()` registers `asyncio.Queue()`, whose
default `maxsize` is 0, i.e. an *unbounded* channel — the claimed bounded
delivery channel (positive capacity) is not what the code creates. -/
theorem c8_unbounded_queue_counterexample :
    subscribeQueue.maxsize = 0 ∧ ¬(0 < subscribeQueue.maxsize) := by
  exact ⟨rfl, by decide⟩

/-- C8 (amended): `subscribe()` creates an *unbounded* empty delivery
channel (`maxsize` 0, which is never full, so `put_nowait` on it cannot
fail); each `broadcast_event` delivers non-blockingly to every registered
channel: the survivors are exactly the non-full channels, each receiving
the event at its tail, and full channels are dropped from the subscriber
set instead of blocking the others. A channel registered after a
broadcast starts empty, so it never observes that event. -/
theorem c8_broadcast_nonblocking (subs : List EQueue) (ev : PyVal) :
    broadcastEvent subs ev =
      (subs.filter (fun q => !queueFull q)).map
        (fun q => { q with items := q.items ++ [ev] }) ∧
    subscribeQueue = ⟨0, []⟩ ∧
    (∀ items : List PyVal, queueFull ⟨0, items⟩ = false) :=
  ⟨broadcast_filter_map subs ev, rfl, fun _ => rfl⟩

/-! ### Timestamp resolution -/

/-- C6 counterexample: a sidecar whose `photoTakenTime.timestamp` is the
*number* 0 — a numeric capture-time field — does not take precedence: the
`if ts:` truthiness test drops it, and the EXIF string
`"2020:01:01 00:00:00"` wins instead of epoch 0 UTC. -/
theorem c6_numeric_zero_counterexample :
    normalize_taken_at c6exif c6goog = some (.naive 2020 1 1 0 0 0) ∧
    normalize_taken_at c6exif c6goog ≠ some (.awareUtc 0) :=
  ⟨rfl, by decide⟩

theorem exifDateStr_vstr {exif : PyVal} {s : String}
    (hs : exifDateStr exif = some s) : exifRawDate exif = .vstr s := by
  unfold exifDateStr at hs
  cases he : exifRawDate exif <;> rw [he] at hs <;> simp_all

theorem exifDateStr_none {exif : PyVal} (hs : exifDateStr exif = none) :
    ∀ s : String, exifRawDate exif ≠ .vstr s := by
  intro s hcon
  unfold exifDateStr at hs
  rw [hcon] at hs
  simp at hs

/-- C6 (amended): the capture-timestamp fallback order. The sidecar's
`photoTakenTime.timestamp` wins — over any EXIF data — exactly when it is
present, truthy, integer-convertible and within `datetime`'s range, and
then the result is that epoch second count as an aware UTC datetime;
otherwise the EXIF `datetime_original` string is parsed against
`YYYY:MM:DD HH:MM:SS` then `YYYY-MM-DD HH:MM:SS`, first success winning;
and when nothing applies the result is `none`, not an error. -/
theorem c6_timestamp_fallback_order (exif g inner tv : PyVal) (n : Int)
    (s : String) (d : DTVal) :
    (pyGetD g "photoTakenTime" (.vdict .dnil) = some inner →
      pyGetD inner "timestamp" .vnone = some tv →
      pyTruthy tv = true → pyToInt tv = some n →
      MIN_TS ≤ n → n ≤ MAX_TS →
      normalize_taken_at exif g = some (.awareUtc n)) ∧
    (googleTs g = none → exifDateStr exif = some s → strptime6 ':' s = some d →
      normalize_taken_at exif g = some d) ∧
    (googleTs g = none → exifDateStr exif = some s → strptime6 ':' s = none →
      strptime6 '-' s = some d → normalize_taken_at exif g = some d) ∧
    (googleTs g = none → exifDateStr exif = some s → strptime6 ':' s = none →
      strptime6 '-' s = none → normalize_taken_at exif g = none) ∧
    (googleTs g = none → exifDateStr exif = none → normalize_taken_at exif g = none) := by
  refine ⟨?_, ?_, ?_, ?_, ?_⟩
  · intro h1 h2 h3 h4 h5 h6
    simp [normalize_taken_at, googleTs, h1, h2, h3, h4, fromtimestampUtc, h5, h6]
  · intro hg hs hp
    unfold normalize_taken_at
    rw [hg, exifDateStr_vstr hs]
    simp [hp]
  · intro hg hs hp1 hp2
    unfold normalize_taken_at
    rw [hg, exifDateStr_vstr hs]
    simp [hp1, hp2]
  · intro hg hs hp1 hp2
    unfold normalize_taken_at
    rw [hg, exifDateStr_vstr hs]
    simp [hp1, hp2]
  · intro hg hs
    unfold normalize_taken_at
    rw [hg]
    cases he : exifRawDate exif <;> simp_all [exifDateStr_none hs]

/-- Witness for `c6_timestamp_fallback_order`: each branch of the fallback
applied at a concrete input — a truthy sidecar epoch beats an EXIF
string; a falsy sidecar falls back to the colon format; a dash-formatted
string needs the second format; garbage yields `none`; absence yields
`none`. -/
theorem c6_timestamp_fallback_order_witness :
    normalize_taken_at c6exif
      (.vdict (.dcons (.vstr "photoTakenTime")
        (.vdict (.dcons (.vstr "timestamp") (.vstr "1700000000") .dnil)) .dnil)) =
      some (.awareUtc 1700000000) ∧
    normalize_taken_at c6exif c6goog = some (.naive 2020 1 1 0 0 0) ∧
    normalize_taken_at
      (.vdict (.dcons (.vstr "datetime_original") (.vstr "2021-07-04 10:20:30") .dnil))
      (.vdict .dnil) = some (.naive 2021 7 4 10 20 30) ∧
    normalize_taken_at
      (.vdict (.dcons (.vstr "datetime_original") (.vstr "not a date") .dnil))
      (.vdict .dnil) = none ∧
    normalize_taken_at (.vdict .dnil) (.vdict .dnil) = none := by
  refine ⟨?_, ?_, ?_, ?_, ?_⟩
  · exact (c6_timestamp_fallback_order c6exif _
      (.vdict (.dcons (.vstr "timestamp") (.vstr "1700000000") .dnil))
      (.vstr "1700000000") 1700000000 "" (.awareUtc 0)).1
      rfl rfl rfl (by decide) (by decide) (by decide)
  · exact (c6_timestamp_fallback_order c6exif c6goog .vnone .vnone 0
      "2020:01:01 00:00:00" (.naive 2020 1 1 0 0 0)).2.1 rfl rfl (by decide)
  · exact (c6_timestamp_fallback_order _ _ .vnone .vnone 0
      "2021-07-04 10:20:30" (.naive 2021 7 4 10 20 30)).2.2.1 rfl rfl (by decide) (by decide)
  · exact (c6_timestamp_fallback_order _ _ .vnone .vnone 0
      "not a date" (.awareUtc 0)).2.2.2.1 rfl rfl (by decide) (by decide)
  · exact (c6_timestamp_fallback_order _ _ .vnone .vnone 0 "" (.awareUtc 0)).2.2.2.2 rfl rfl

/-! ### Per-item failure isolation in chunk dispatch -/

theorem processStep_fail (pfail : Item → Bool) (reprocess : Bool) (batchId : String)
    (item : Item) (h : pfail item = true) (acc : PhotoDb × Nat × Nat) :
    processStep pfail reprocess batchId acc item = acc := by
  obtain ⟨db, p, s⟩ := acc
  simp [processStep, processSinglePhoto, h]

/-- C3: a failing item in a chunk is invisible to its siblings and to the
counters — dispatching a chunk containing an item whose persistence
raises produces exactly the state and counts of the chunk without that
item, and in isolation the failing item leaves the store untouched while
reporting neither processed nor skipped (`_process_single_photo` catches
every exception and `asyncio.gather(..., return_exceptions=True)` keeps
siblings running). -/
theorem c3_item_failure_isolated (pfail : Item → Bool) (l1 l2 : List Item)
    (item : Item) (reprocess : Bool) (batchId : String) (pdb : PhotoDb)
    (h : pfail item = true) :
    processChunk pfail reprocess batchId (l1 ++ item :: l2) pdb =
      processChunk pfail reprocess batchId (l1 ++ l2) pdb ∧
    processSinglePhoto true item batchId reprocess pdb = (pdb, false, false) := by
  constructor
  · simp only [processChunk, List.foldl_append, List.foldl_cons]
    rw [processStep_fail pfail reprocess batchId item h]
  · rfl

/-- Witness for `c3_item_failure_isolated`: a two-item chunk whose second
item fails collapses to the one-item chunk, with the failing item
reported as neither processed nor skipped. -/
theorem c3_item_failure_isolated_witness :
    processChunk (fun it => it.filename = "IMG_9.jpg") false "b1"
        [c1item, c2item] ⟨[], 1⟩ =
      processChunk (fun it => it.filename = "IMG_9.jpg") false "b1" [c1item] ⟨[], 1⟩ ∧
    processSinglePhoto true c2item "b1" false ⟨[], 1⟩ = (⟨[], 1⟩, false, false) := by
  exact c3_item_failure_isolated (fun it => it.filename = "IMG_9.jpg")
    [c1item] [] c2item false "b1" ⟨[], 1⟩ (by decide)

/-! ### The photo upsert and the end-to-end run -/

/-- C2 evaluated at a failing input: on an empty store, upserting a fresh
item inserts nothing and reports neither processed nor skipped, because
`Photo.source_uri` (and `raw_metadata`) do not exist on the ORM model of
`photos.py` — the attribute access raises `AttributeError`, which the
handler swallows. The claimed lookup-insert/skip/replace behavior is
unreachable. -/
theorem c2_upsert_eval :
    processSinglePhoto false c2item "b1" false ⟨[], 1⟩ = (⟨[], 1⟩, false, false) ∧
    processSinglePhoto false c2item "b1" true ⟨[], 1⟩ = (⟨[], 1⟩, false, false) ∧
    photoModelHas "source_uri" = false ∧
    photoModelHas "raw_metadata" = false :=
  ⟨rfl, rfl, rfl, rfl⟩

/-- C1 evaluated on the end-to-end scenario: the extractor does stream
exactly one item with filename `IMG_1.jpg`, MIME `image/jpeg` and capture
timestamp epoch 1700000000 UTC, and the batch does end `completed` — but
with `processed_files = 0`, `skipped_files = 0` and no `PhotoRecord`
persisted, because every per-item upsert dies on the missing
`Photo.source_uri` attribute. -/
theorem c1_end_to_end_eval :
    (streamZipMetadata c1zips 0 none).items.map (fun i => i.filename) = ["IMG_1.jpg"] ∧
    (streamZipMetadata c1zips 0 none).items.map (fun i => i.mime_type) =
      [some "image/jpeg"] ∧
    (streamZipMetadata c1zips 0 none).items.map (fun i => i.taken_at) =
      [some (.awareUtc 1700000000)] ∧
    c1out.pdb.rows = [] ∧
    c1out.result = .ok ("b1", 0) ∧
    c1out.bdb = [⟨"b1", "completed", 0, 0, none, true⟩] := by
  refine ⟨?_, ?_, ?_, ?_, ?_, ?_⟩ <;> rfl

/-! ### Limit semantics of the stream -/

theorem streamEntries_count (zn : String) (nm : List String) (en es : List ZipEntry)
    (lim : Option Nat) :
    ∀ count, (streamEntries zn nm en es count lim).2.1 =
      count + (streamEntries zn nm en es count lim).1.length := by
  induction es with
  | nil => intro count; simp [streamEntries]
  | cons e rest ih =>
    intro count
    simp only [streamEntries]
    cases hi : isImage e.filename with
    | false => simpa [hi] using ih count
    | true =>
      cases hl : limitHit lim (count + 1) with
      | true => simp [hi, hl]
      | false =>
        simp only [hi, hl, if_true, Bool.false_eq_true, if_false, List.length_cons]
        rw [ih (count + 1)]
        omega

theorem streamEntries_le (zn : String) (nm : List String) (en : List ZipEntry)
    (L : Nat) (es : List ZipEntry) :
    ∀ count, count < L →
      (streamEntries zn nm en es count (some L)).2.1 ≤ L ∧
      ((streamEntries zn nm en es count (some L)).2.2 = false →
        (streamEntries zn nm en es count (some L)).2.1 < L) := by
  induction es with
  | nil =>
    intro count h
    simp only [streamEntries]
    exact ⟨by omega, fun _ => h⟩
  | cons e rest ih =>
    intro count h
    simp only [streamEntries]
    cases hi : isImage e.filename with
    | false => simpa [hi] using ih count h
    | true =>
      cases hl : limitHit (some L) (count + 1) with
      | true =>
        have hle : L ≤ count + 1 := by simpa [limitHit] using hl
        simp only [hi, hl, if_true]
        exact ⟨by omega, fun hcon => by simp at hcon⟩
      | false =>
        have hlt : count + 1 < L := by
          have : ¬ L ≤ count + 1 := by simpa [limitHit] using hl
          omega
        simp only [hi, hl, if_true, Bool.false_eq_true, if_false]
        exact ih (count + 1) hlt

theorem streamEntries_noreach (zn : String) (nm : List String) (en : List ZipEntry)
    (lim : Option Nat) (es : List ZipEntry) :
    ∀ count, (streamEntries zn nm en es count lim).2.2 = false →
      (streamEntries zn nm en es count lim).1.length =
        (es.filter (fun e => isImage e.filename)).length := by
  induction es with
  | nil => intro count _; simp [streamEntries]
  | cons e rest ih =>
    intro count hnr
    simp only [streamEntries] at hnr ⊢
    cases hi : isImage e.filename with
    | false =>
      simp only [hi, Bool.false_eq_true, if_false] at hnr ⊢
      simp [List.filter_cons, hi, ih count hnr]
    | true =>
      cases hl : limitHit lim (count + 1) with
      | true => simp [hi, hl] at hnr
      | false =>
        simp only [hi, hl, if_true, Bool.false_eq_true, if_false] at hnr ⊢
        simp [List.filter_cons, hi, ih (count + 1) hnr]

theorem streamZip_len_le (L : Nat) (zips : List Container) :
    ∀ count, count < L →
      count + (streamZipMetadata zips count (some L)).items.length ≤ L := by
  induction zips with
  | nil => intro count h; simp [streamZipMetadata]; omega
  | cons z rest ih =>
    intro count h
    cases z with
    | corrupt n => simp [streamZipMetadata]; omega
    | ok n entries =>
      simp only [streamZipMetadata]
      have h1 := streamEntries_count n
        ((entries.filter (fun e => !e.isDir)).map (fun e => e.filename))
        (entries.filter (fun e => !e.isDir)) (entries.filter (fun e => !e.isDir))
        (some L) count
      have h2 := streamEntries_le n
        ((entries.filter (fun e => !e.isDir)).map (fun e => e.filename))
        (entries.filter (fun e => !e.isDir)) L (entries.filter (fun e => !e.isDir))
        count h
      generalize hr : streamEntries n
        ((entries.filter (fun e => !e.isDir)).map (fun e => e.filename))
        (entries.filter (fun e => !e.isDir)) (entries.filter (fun e => !e.isDir))
        count (some L) = r at h1 h2 ⊢
      obtain ⟨its, cnt, rch⟩ := r
      cases rch with
      | true => simp only [if_true]; simp at h1 h2 ⊢; omega
      | false =>
        simp only [Bool.false_eq_true, if_false]
        simp at h1 h2 ⊢
        have h3 := h2.2
        have h4 := ih cnt (by omega)
        omega

theorem streamZip_opened_bound (L : Nat) (suf : List Container) (pre : List Container) :
    ∀ count, count < L → L ≤ count + imageCountAll pre →
      (streamZipMetadata (pre ++ suf) count (some L)).opened ≤ pre.length := by
  induction pre with
  | nil =>
    intro count h1 h2
    simp only [imageCountAll, List.map_nil, List.sum_nil, Nat.add_zero] at h2
    exact absurd h2 (by omega)
  | cons z pre' ih =>
    intro count h1 h2
    simp only [imageCountAll, List.map_cons, List.sum_cons] at h2
    cases z with
    | corrupt n =>
      simp only [List.cons_append, streamZipMetadata, List.length_cons]
      omega
    | ok n entries =>
      simp only [List.cons_append, streamZipMetadata, List.length_cons]
      have h1c := streamEntries_count n
        ((entries.filter (fun e => !e.isDir)).map (fun e => e.filename))
        (entries.filter (fun e => !e.isDir)) (entries.filter (fun e => !e.isDir))
        (some L) count
      have h2c := streamEntries_le n
        ((entries.filter (fun e => !e.isDir)).map (fun e => e.filename))
        (entries.filter (fun e => !e.isDir)) L (entries.filter (fun e => !e.isDir))
        count h1
      have hlen := streamEntries_noreach n
        ((entries.filter (fun e => !e.isDir)).map (fun e => e.filename))
        (entries.filter (fun e => !e.isDir)) (some L) (entries.filter (fun e => !e.isDir))
        count
      have himg : ((entries.filter (fun e => !e.isDir)).filter
          (fun e => isImage e.filename)).length = imageCount (.ok n entries) := rfl
      rw [himg] at hlen
      generalize hr : streamEntries n
        ((entries.filter (fun e => !e.isDir)).map (fun e => e.filename))
        (entries.filter (fun e => !e.isDir)) (entries.filter (fun e => !e.isDir))
        count (some L) = r at h1c h2c hlen ⊢
      obtain ⟨its, cnt, rch⟩ := r
      cases rch with
      | true => simp only [if_true]; omega
      | false =>
        simp only [Bool.false_eq_true, if_false]
        simp at h1c h2c hlen ⊢
        have h3 := h2c.2
        have h4 := ih cnt (by omega) (by simp only [imageCountAll]; omega)
        omega

/-- C4 counterexample: a run invoked with `limit = 0` still produces one
item — the `count >= limit` check only runs after a yield, so the first
image is yielded before the limit is consulted, violating
"the total never exceeds L" at `L = 0`. -/
theorem c4_limit_zero_counterexample :
    (streamZipMetadata c1zips 0 (some 0)).items.length = 1 ∧
    ¬((streamZipMetadata c1zips 0 (some 0)).items.length ≤ 0) :=
  ⟨rfl, by decide⟩

/-- C4 (amended): for every positive limit `L` the run produces at most
`L` items, and once a prefix of the containers already holds `L`
image-like members no container beyond that prefix is opened for content
reads — the limit truncates the overall sequence and short-circuits
container processing. (With `L = 0` the code still yields one item, see
the counterexample.) -/
theorem c4_limit_truncates (zips pre suf : List Container) (L : Nat) (hL : 1 ≤ L) :
    (streamZipMetadata zips 0 (some L)).items.length ≤ L ∧
    (zips = pre ++ suf → L ≤ imageCountAll pre →
      (streamZipMetadata zips 0 (some L)).opened ≤ pre.length) := by
  constructor
  · have := streamZip_len_le L zips 0 (by omega)
    omega
  · intro hz hc
    subst hz
    exact streamZip_opened_bound L suf pre 0 (by omega) (by simpa using hc)

/-- Witness for `c4_limit_truncates`: two containers with one image each
under `limit = 1`: at most one item is produced and the second container
is never opened. -/
theorem c4_limit_truncates_witness :
    (streamZipMetadata (c1zips ++ [cSecondZip]) 0 (some 1)).items.length ≤ 1 ∧
    (streamZipMetadata (c1zips ++ [cSecondZip]) 0 (some 1)).opened ≤ 1 := by
  have h := c4_limit_truncates (c1zips ++ [cSecondZip]) c1zips [cSecondZip] 1 (by decide)
  exact ⟨h.1, h.2 rfl (by decide)⟩

/-! ### Corrupt containers abort the scan -/

theorem streamEntries_none_noreach (zn : String) (nm : List String)
    (en es : List ZipEntry) :
    ∀ count, (streamEntries zn nm en es count none).2.2 = false := by
  induction es with
  | nil => intro count; simp [streamEntries]
  | cons e rest ih =>
    intro count
    simp only [streamEntries]
    cases hi : isImage e.filename with
    | false => simpa [hi] using ih count
    | true => simp only [hi, if_true, limitHit, Bool.false_eq_true, if_false]; exact ih (count + 1)

theorem streamZip_corrupt (name : String) (suf : List Container) :
    ∀ (pre : List Container), (∀ z ∈ pre, z.isOk = true) → ∀ count,
      (streamZipMetadata (pre ++ .corrupt name :: suf) count none).errored = true ∧
      (streamZipMetadata (pre ++ .corrupt name :: suf) count none).items =
        (streamZipMetadata pre count none).items := by
  intro pre
  induction pre with
  | nil => intro _ count; simp [streamZipMetadata]
  | cons z pre' ih =>
    intro hpre count
    have hz := hpre z (by simp)
    cases z with
    | corrupt n => simp [Container.isOk] at hz
    | ok n entries =>
      have hpre' : ∀ z ∈ pre', z.isOk = true := fun z hz' => hpre z (by simp [hz'])
      simp only [List.cons_append, streamZipMetadata]
      have hnr := streamEntries_none_noreach n
        ((entries.filter (fun e => !e.isDir)).map (fun e => e.filename))
        (entries.filter (fun e => !e.isDir)) (entries.filter (fun e => !e.isDir)) count
      rw [hnr]
      simp only [Bool.false_eq_true, if_false, List.append_eq]
      obtain ⟨herr, hitems⟩ := ih hpre' (streamEntries n
        ((entries.filter (fun e => !e.isDir)).map (fun e => e.filename))
        (entries.filter (fun e => !e.isDir)) (entries.filter (fun e => !e.isDir))
        count none).2.1
      exact ⟨herr, by rw [hitems]⟩

theorem runFull_bdb_single (pf : Item → Bool) (rp : Bool) (bid : String) :
    ∀ (cs : List (List Item)) (pdb : PhotoDb) (p s : Nat) (effs : List Effect)
      (row : BatchRow), row.batch_id = bid →
      ∃ row', (runFull pf rp bid cs ⟨pdb, [row], p, s, effs⟩).bdb = [row'] ∧
        row'.batch_id = bid := by
  intro cs
  induction cs with
  | nil => intro pdb p s effs row h; exact ⟨row, rfl, h⟩
  | cons c cs ih =>
    intro pdb p s effs row h
    simp only [runFull]
    have hupd : updateBatchProgress [row] bid
        (p + (processChunk pf rp bid c pdb).2.1) (s + (processChunk pf rp bid c pdb).2.2) =
        [{ row with processed_files := p + (processChunk pf rp bid c pdb).2.1,
                    skipped_files := s + (processChunk pf rp bid c pdb).2.2 }] := by
      simp [updateBatchProgress, h]
    rw [hupd]
    exact ih _ _ _ _ _ h

/-- C5 counterexample: a root whose first container is corrupt and whose
second container holds one image produces *no* items and dies with the
propagated `BadZipFile` — the remaining container is never processed,
where the claim demands the corrupt container be skipped and the scan
continue. -/
theorem c5_corrupt_counterexample :
    (streamZipMetadata [cBadZip, cSecondZip] 0 none).items = [] ∧
    (streamZipMetadata [cBadZip, cSecondZip] 0 none).errored = true ∧
    imageCount cSecondZip = 1 :=
  ⟨rfl, rfl, rfl⟩

/-- C5 (amended): an unreadable or corrupt container is *not* caught at
the Scanner boundary — `_list_zip_entries` has no handler — so the
exception aborts the whole scan at that container: only items of the
containers before it are produced, the run fails, and the orchestrator
marks the batch `error` with the exception message and re-raises. -/
theorem c5_corrupt_container_aborts
    (pre suf : List Container) (name : String) (pdb0 : PhotoDb) (bid gen : String)
    (reprocess : Bool) (pfail : Item → Bool)
    (hpre : ∀ z ∈ pre, z.isOk = true) :
    (streamZipMetadata (pre ++ .corrupt name :: suf) 0 none).errored = true ∧
    (streamZipMetadata (pre ++ .corrupt name :: suf) 0 none).items =
      (streamZipMetadata pre 0 none).items ∧
    (ingestTakeoutMetadata (pre ++ .corrupt name :: suf) pdb0 [] (some bid) gen none
        reprocess pfail).result = .error zipErrorMsg ∧
    batchStatusOf (ingestTakeoutMetadata (pre ++ .corrupt name :: suf) pdb0 []
        (some bid) gen none reprocess pfail) bid = some ("error", some zipErrorMsg) := by
  obtain ⟨herr, hitems⟩ := streamZip_corrupt name suf pre hpre 0
  refine ⟨herr, hitems, ?_, ?_⟩
  · simp only [ingestTakeoutMetadata, herr, if_true]
  · simp only [ingestTakeoutMetadata, herr, if_true, batchStatusOf]
    have hgo : getOrCreateBatch [] bid = [⟨bid, "running", 0, 0, none, false⟩] := by
      simp [getOrCreateBatch]
    rw [hgo]
    obtain ⟨row', hbdb, hbid⟩ := runFull_bdb_single pfail reprocess bid
      (splitChunks20 (streamZipMetadata (pre ++ .corrupt name :: suf) 0 none).items).1
      pdb0 0 0 [] ⟨bid, "running", 0, 0, none, false⟩ rfl
    rw [hbdb]
    simp [markError, hbid, List.find?]

/-- Witness for `c5_corrupt_container_aborts`: one good container, then a
corrupt one — the batch ends `error` and only the good container's item
survives. -/
theorem c5_corrupt_container_aborts_witness :
    (streamZipMetadata (c1zips ++ .corrupt "broken.zip" :: [cSecondZip]) 0 none).errored
      = true ∧
    (streamZipMetadata (c1zips ++ .corrupt "broken.zip" :: [cSecondZip]) 0 none).items =
      (streamZipMetadata c1zips 0 none).items ∧
    (ingestTakeoutMetadata (c1zips ++ .corrupt "broken.zip" :: [cSecondZip]) ⟨[], 1⟩ []
        (some "b5") "g" none false (fun _ => false)).result = .error zipErrorMsg ∧
    batchStatusOf (ingestTakeoutMetadata (c1zips ++ .corrupt "broken.zip" :: [cSecondZip])
        ⟨[], 1⟩ [] (some "b5") "g" none false (fun _ => false)) "b5" =
      some ("error", some zipErrorMsg) := by
  exact c5_corrupt_container_aborts c1zips [cSecondZip] "broken.zip" ⟨[], 1⟩ "b5" "g"
    false (fun _ => false)
    (by intro z hz; simp only [c1zips, List.mem_singleton] at hz; subst hz; rfl)

/-! ### Progress updates and the missing broadcast -/

theorem runFull_effects (pf : Item → Bool) (rp : Bool) (bid : String) :
    ∀ (cs : List (List Item)) (st : RunState),
      (runFull pf rp bid cs st).effects =
        st.effects ++ (cumFrom st.processed st.skipped
          (chunkDeltas pf rp bid cs st.pdb)).map
            (fun pr => Effect.progress bid pr.1 pr.2) := by
  intro cs
  induction cs with
  | nil => intro st; simp [runFull, chunkDeltas, cumFrom]
  | cons c cs ih =>
    intro st
    simp only [runFull, chunkDeltas, cumFrom]
    rw [ih]
    simp [List.append_assoc]

theorem runFull_processed (pf : Item → Bool) (rp : Bool) (bid : String) :
    ∀ (cs : List (List Item)) (st : RunState),
      (runFull pf rp bid cs st).processed =
        st.processed + ((chunkDeltas pf rp bid cs st.pdb).map Prod.fst).sum := by
  intro cs
  induction cs with
  | nil => intro st; simp [runFull, chunkDeltas]
  | cons c cs ih =>
    intro st
    simp only [runFull, chunkDeltas, List.map_cons, List.sum_cons]
    rw [ih]
    simp
    omega

theorem runFull_skipped (pf : Item → Bool) (rp : Bool) (bid : String) :
    ∀ (cs : List (List Item)) (st : RunState),
      (runFull pf rp bid cs st).skipped =
        st.skipped + ((chunkDeltas pf rp bid cs st.pdb).map Prod.snd).sum := by
  intro cs
  induction cs with
  | nil => intro st; simp [runFull, chunkDeltas]
  | cons c cs ih =>
    intro st
    simp only [runFull, chunkDeltas, List.map_cons, List.sum_cons]
    rw [ih]
    simp
    omega

theorem runFull_pdb (pf : Item → Bool) (rp : Bool) (bid : String) :
    ∀ (cs : List (List Item)) (st : RunState),
      (runFull pf rp bid cs st).pdb = foldChunksPdb pf rp bid cs st.pdb := by
  intro cs
  induction cs with
  | nil => intro st; simp [runFull, foldChunksPdb]
  | cons c cs ih =>
    intro st
    simp only [runFull, foldChunksPdb]
    rw [ih]

theorem chunkDeltas_concat (pf : Item → Bool) (rp : Bool) (bid : String) :
    ∀ (cs : List (List Item)) (c : List Item) (pdb : PhotoDb),
      chunkDeltas pf rp bid (cs ++ [c]) pdb =
        chunkDeltas pf rp bid cs pdb ++
          [((processChunk pf rp bid c (foldChunksPdb pf rp bid cs pdb)).2.1,
            (processChunk pf rp bid c (foldChunksPdb pf rp bid cs pdb)).2.2)] := by
  intro cs
  induction cs with
  | nil => intro c pdb; simp [chunkDeltas, foldChunksPdb]
  | cons c0 cs ih =>
    intro c pdb
    simp only [List.cons_append, chunkDeltas, foldChunksPdb, List.append_eq]
    rw [ih]

/-- C9 counterexample: the end-to-end run completes its (final partial)
chunk, yet its whole effect trace is the single terminal `completed`
write — no progress snapshot is ever handed to the Event Broadcaster
(`broadcast_event` is never called by the orchestrator), and no per-chunk
progress write precedes the terminal update for the final partial
chunk. -/
theorem c9_no_broadcast_counterexample :
    c1out.effects = [.completed "b1" 0 0] ∧
    c1out.effects.any Effect.isBroadcast = false :=
  ⟨rfl, rfl⟩

/-- C9 (amended): the orchestrator's effect trace never contains a
broadcast to the Event Broadcaster; on a cleanly completing run it is
exactly one cumulative progress write per *full* chunk (carrying the
running totals collected after the whole chunk, not per-chunk values)
followed by the terminal `completed` write carrying the final totals —
the final partial chunk's counts are only written by that terminal
update. -/
theorem c9_chunk_progress (zips : List Container) (pdb0 : PhotoDb) (bdb0 : BatchDb)
    (bidOpt : Option String) (gen : String) (limit : Option Nat) (reprocess : Bool)
    (pfail : Item → Bool) (bid : String) (out : IngestOut) (items : List Item)
    (hbid : bid = (match bidOpt with | some b => b | none => "batch-" ++ gen))
    (hout : out = ingestTakeoutMetadata zips pdb0 bdb0 bidOpt gen limit reprocess pfail)
    (hitems : items = (streamZipMetadata zips 0 limit).items) :
    out.effects.any Effect.isBroadcast = false ∧
    ((streamZipMetadata zips 0 limit).errored = false →
      out.effects =
        (cumFrom 0 0 (chunkDeltas pfail reprocess bid (splitChunks20 items).1 pdb0)).map
          (fun pr => Effect.progress bid pr.1 pr.2) ++
        [Effect.completed bid
          (((chunkDeltas pfail reprocess bid
              ((splitChunks20 items).1 ++ [(splitChunks20 items).2]) pdb0).map
                Prod.fst).sum)
          (((chunkDeltas pfail reprocess bid
              ((splitChunks20 items).1 ++ [(splitChunks20 items).2]) pdb0).map
                Prod.snd).sum)]) := by
  subst hout hitems hbid
  simp only [ingestTakeoutMetadata]
  cases herr : (streamZipMetadata zips 0 limit).errored with
  | true =>
    simp only [herr, if_true]
    constructor
    · rw [runFull_effects]
      simp only [Effect.isBroadcast, List.any_append, List.any_map, Function.comp,
        List.any_eq_false, List.mem_map, Prod.exists, forall_exists_index, and_imp,
        List.nil_append, List.any_cons, List.any_nil, Bool.or_false]
      exact fun x a b _ hx => by subst hx; simp
    · intro hcon
      simp at hcon
  | false =>
    simp only [herr, Bool.false_eq_true, if_false]
    constructor
    · rw [runFull_effects]
      simp only [Effect.isBroadcast, List.any_append, List.any_map, Function.comp,
        List.any_eq_false, List.mem_map, Prod.exists, forall_exists_index, and_imp,
        List.nil_append, List.any_cons, List.any_nil, Bool.or_false]
      exact fun x a b _ hx => by subst hx; simp
    · intro _
      rw [runFull_effects, runFull_processed, runFull_skipped, runFull_pdb,
        chunkDeltas_concat]
      simp [List.map_append, List.sum_append]

/-- Witness for `c9_chunk_progress`: the clean end-to-end run — its trace
has no broadcast and is exactly the terminal `completed` write after the
(empty) full-chunk progress list. -/
theorem c9_chunk_progress_witness :
    c1out.effects.any Effect.isBroadcast = false ∧
    c1out.effects =
      (cumFrom 0 0 (chunkDeltas (fun _ => false) false "b1"
        (splitChunks20 (streamZipMetadata c1zips 0 none).items).1 ⟨[], 1⟩)).map
        (fun pr => Effect.progress "b1" pr.1 pr.2) ++
      [Effect.completed "b1"
        (((chunkDeltas (fun _ => false) false "b1"
            ((splitChunks20 (streamZipMetadata c1zips 0 none).items).1 ++
              [(splitChunks20 (streamZipMetadata c1zips 0 none).items).2]) ⟨[], 1⟩).map
              Prod.fst).sum)
        (((chunkDeltas (fun _ => false) false "b1"
            ((splitChunks20 (streamZipMetadata c1zips 0 none).items).1 ++
              [(splitChunks20 (streamZipMetadata c1zips 0 none).items).2]) ⟨[], 1⟩).map
              Prod.snd).sum)] := by
  have h := c9_chunk_progress c1zips ⟨[], 1⟩ [] (some "b1") "g" none false
    (fun _ => false) "b1" c1out ((streamZipMetadata c1zips 0 none).items) rfl rfl rfl
  exact ⟨h.1, h.2 rfl⟩

end PhotoLens
